import Mathlib

/-!
Verification of the Search-Daemon repository (`search_daemon` Python package).

This file gives a shallow embedding of the parts of the source that the
claims speak about:

* `chunker.chunk_text`       — `src/search_daemon/chunker.py`
* `indexer._chunk_id`        — `src/search_daemon/indexer.py`
* `store.ChromaStore`        — `src/search_daemon/store.py` (collection ops)
* `cache.FileIndexCache`     — `src/search_daemon/cache.py`
* `status.StatusTracker`     — `src/search_daemon/status.py`
* `Indexer.index_file`, `Indexer.remove_file`, `Indexer.initial_scan`
                             — `src/search_daemon/indexer.py`
* `watcher.FileEventHandler` — `src/search_daemon/watcher.py`
* `reindexer.pop_requests`   — `src/search_daemon/reindexer.py`

Modelling conventions:
* Python strings are Lean `String`; character-level operations (chunking,
  whitespace stripping, suffix extraction) work on `List Char`.
* Python float mtimes are modelled as `Int`: the code only ever compares
  mtimes for equality, never does arithmetic on them.
* The embedding model (`sentence-transformers`, out of scope per the spec)
  is an arbitrary function `embedF : List (List Char) → List E` over an
  arbitrary vector type `E`; the daemon treats it as a black box.
* Chroma collections are association lists `id → chunk record`; Chroma
  guarantees id uniqueness, which the model states as a `Nodup` invariant.
* The daemon (`watcher.run_daemon`) always constructs the `Indexer` with a
  status tracker and a cache (watcher.py lines 53-57), so the model makes
  both always present.
-/

set_option maxRecDepth 10000

/-- Python whitespace test used by `str.strip()` (modelled by
`Char.isWhitespace`). -/
def isWS (c : Char) : Bool := c.isWhitespace

/-- Python `str.strip()`: drop leading and trailing whitespace. -/
def pyStrip (l : List Char) : List Char :=
  ((l.dropWhile isWS).reverse.dropWhile isWS).reverse

/-- The loop body of `chunk_text` (chunker.py lines 10-15):
`for start in range(0, len(text), step)` with an early `break` once
`start + size >= len(text)`; each window `text[start : start+size]` is
stripped and appended when non-empty.  `fuel` bounds the number of
iterations; `chunk_text` supplies enough fuel for the loop to finish. -/
def chunkLoop (t : List Char) (size step : Nat) : Nat → Nat → List (List Char)
  | 0, _ => []
  | fuel + 1, start =>
    if start < t.length then
      let c := pyStrip ((t.drop start).take size)
      let rest :=
        if start + size ≥ t.length then []
        else chunkLoop t size step fuel (start + step)
      if c = [] then rest else c :: rest
    else []

/-- `chunker.chunk_text` (chunker.py lines 4-16): returns `[]` when the
stripped text is empty, otherwise runs the windowing loop with
`step = max 1 (size - overlap)`.  (Python `max(1, size - overlap)` equals
`max 1 (size - overlap)` on `Nat`: for `overlap ≥ size` both give 1.) -/
def chunk_text (t : List Char) (size overlap : Nat) : List (List Char) :=
  if pyStrip t = [] then []
  else chunkLoop t size (max 1 (size - overlap)) t.length 0

/-- The claim's description of the chunk windows: the windows
`T[k*step : k*step + S]` for `k = 0, 1, ...`, stopping once a window
reaches the end of `T` (i.e. `k*step + S ≥ |T|`); the window that reaches
the end is still produced.  `fuel` bounds `k`'s range. -/
def specWindows (t : List Char) (size step : Nat) : Nat → Nat → List (List Char)
  | 0, _ => []
  | fuel + 1, k =>
    let w := (t.drop (k * step)).take size
    if k * step + size ≥ t.length then [w]
    else w :: specWindows t size step fuel (k + 1)

/-- The chunk list as the claim describes it: each window trimmed of
leading and trailing whitespace, empty trimmed windows dropped; an empty
or all-whitespace text yields the empty list. -/
def chunk_text_spec (t : List Char) (size overlap : Nat) : List (List Char) :=
  if pyStrip t = [] then []
  else
    ((specWindows t size (max 1 (size - overlap)) t.length 0).map pyStrip).filter
      (fun c => c ≠ [])

namespace Sha256

/-- Truncate to a 32-bit word. -/
def w32 (n : Nat) : Nat := n % 4294967296

/-- 32-bit right rotation. -/
def rotr (n x : Nat) : Nat := w32 ((x >>> n) ||| (x <<< (32 - n)))

def bsig0 (x : Nat) : Nat := (rotr 2 x) ^^^ (rotr 13 x) ^^^ (rotr 22 x)
def bsig1 (x : Nat) : Nat := (rotr 6 x) ^^^ (rotr 11 x) ^^^ (rotr 25 x)
def ssig0 (x : Nat) : Nat := (rotr 7 x) ^^^ (rotr 18 x) ^^^ (x >>> 3)
def ssig1 (x : Nat) : Nat := (rotr 17 x) ^^^ (rotr 19 x) ^^^ (x >>> 10)
def ch (x y z : Nat) : Nat := (x &&& y) ^^^ ((x ^^^ 4294967295) &&& z)
def maj (x y z : Nat) : Nat := (x &&& y) ^^^ (x &&& z) ^^^ (y &&& z)

def K : List Nat :=
  [1116352408, 1899447441, 3049323471, 3921009573, 961987163,
   1508970993, 2453635748, 2870763221, 3624381080, 310598401,
   607225278, 1426881987, 1925078388, 2162078206, 2614888103,
   3248222580, 3835390401, 4022224774, 264347078, 604807628,
   770255983, 1249150122, 1555081692, 1996064986, 2554220882,
   2821834349, 2952996808, 3210313671, 3336571891, 3584528711,
   113926993, 338241895, 666307205, 773529912, 1294757372,
   1396182291, 1695183700, 1986661051, 2177026350, 2456956037,
   2730485921, 2820302411, 3259730800, 3345764771, 3516065817,
   3600352804, 4094571909, 275423344, 430227734, 506948616,
   659060556, 883997877, 958139571, 1322822218, 1537002063,
   1747873779, 1955562222, 2024104815, 2227730452, 2361852424,
   2428436474, 2756734187, 3204031479, 3329325298]

def H0 : List Nat :=
  [1779033703, 3144134277, 1013904242, 2773480762,
   1359893119, 2600822924, 528734635, 1541459225]

/-- Big-endian bytes of `n`, `k` bytes wide. -/
def beBytes (k n : Nat) : List Nat :=
  match k with
  | 0 => []
  | k + 1 => beBytes k (n / 256) ++ [n % 256]

/-- SHA-256 padding: append `0x80`, zero bytes to 56 mod 64, then the
original bit length as 8 big-endian bytes. -/
def pad (msg : List Nat) : List Nat :=
  let l := msg.length
  let zeros := (64 + 55 - (l % 64)) % 64
  msg ++ [0x80] ++ List.replicate zeros 0 ++ beBytes 8 (l * 8)

/-- Split a (padded) byte stream into 64-byte blocks; `fuel` bounds the
number of blocks (`digest` passes the stream length, which is enough). -/
def blocksF : Nat → List Nat → List (List Nat)
  | 0, _ => []
  | fuel + 1, l => if l.isEmpty then [] else l.take 64 :: blocksF fuel (l.drop 64)

/-- Combine 4 consecutive bytes into one big-endian 32-bit word. -/
def toWords : List Nat → List Nat
  | b0 :: b1 :: b2 :: b3 :: rest =>
    (((b0 * 256 + b1) * 256 + b2) * 256 + b3) :: toWords rest
  | _ => []

/-- Extend the 16 message words to 64 schedule words. -/
def schedule (w : List Nat) : List Nat :=
  (List.range 48).foldl
    (fun acc _ =>
      let n := acc.length
      acc ++ [w32 (ssig1 (acc.getD (n - 2) 0) + acc.getD (n - 7) 0 +
                   ssig0 (acc.getD (n - 15) 0) + acc.getD (n - 16) 0)])
    w

/-- One round of the compression function. -/
def round (st : List Nat) (kw : Nat × Nat) : List Nat :=
  match st with
  | [a, b, c, d, e, f, g, h] =>
    let t1 := w32 (h + bsig1 e + ch e f g + kw.1 + kw.2)
    let t2 := w32 (bsig0 a + maj a b c)
    [w32 (t1 + t2), a, b, c, w32 (d + t1), e, f, g]
  | st => st

/-- Process one 64-byte block. -/
def compress (h : List Nat) (block : List Nat) : List Nat :=
  let w := schedule (toWords block)
  let st := (K.zip w).foldl round h
  (h.zip st).map (fun p => w32 (p.1 + p.2))

/-- SHA-256 digest (32 bytes) of a byte stream. -/
def digest (msg : List Nat) : List Nat :=
  ((blocksF (pad msg).length (pad msg)).foldl compress H0).flatMap (beBytes 4)

def hexDigit (n : Nat) : Char :=
  if n < 10 then Char.ofNat (48 + n) else Char.ofNat (87 + n)

/-- Lowercase hex rendering of a byte stream, two digits per byte
(Python `hexdigest()`). -/
def hex (bytes : List Nat) : List Char :=
  bytes.flatMap (fun b => [hexDigit (b / 16), hexDigit (b % 16)])

/-- UTF-8 encoding of one character (Python `str.encode()`). -/
def utf8Char (c : Char) : List Nat :=
  let n := c.toNat
  if n < 128 then [n]
  else if n < 2048 then [192 + n / 64, 128 + n % 64]
  else if n < 65536 then [224 + n / 4096, 128 + (n / 64) % 64, 128 + n % 64]
  else [240 + n / 262144, 128 + (n / 4096) % 64, 128 + (n / 64) % 64, 128 + n % 64]

/-- UTF-8 encoding of a string. -/
def utf8 (s : String) : List Nat := s.data.flatMap utf8Char

/-- `hashlib.sha256(s.encode()).hexdigest()` as a list of hex chars. -/
def hexdigest (s : String) : List Char := hex (digest (utf8 s))

end Sha256

/-! ## Path helpers (`pathlib`) -/

/-- `Path(p).name`: the final path component (after the last `/`). -/
def lastComponent (p : String) : String :=
  ⟨(p.data.reverse.takeWhile (fun c => c ≠ '/')).reverse⟩

/-- `Path(p).suffix`: the extension of the final component, with its dot;
empty when the name has no dot, starts with its only dot, or ends in the
dot (pathlib: `name[i:]` when `0 < i < len(name) - 1` for
`i = name.rfind(".")`). -/
def pySuffix (p : String) : String :=
  let name := (lastComponent p).data
  let post := name.reverse.takeWhile (fun c => c ≠ '.')
  if post.length = name.length then ""
  else
    let i := name.length - post.length - 1
    if 0 < i ∧ i < name.length - 1 then ⟨name.drop i⟩ else ""

/-- `Path(p).suffix.lower()`. -/
def suffixLower (p : String) : String := ⟨(pySuffix p).data.map Char.toLower⟩

/-! ## Association-list helpers

Python `dict`s keyed by strings are modelled as association lists with
unique keys.  `alSet` updates the first occurrence in place (Python dicts
keep insertion order and update in place); `alErase` models
`dict.pop(k, None)`. -/

def alGet {α : Type} : List (String × α) → String → Option α
  | [], _ => none
  | (k', v) :: rest, k => if k' = k then some v else alGet rest k

def alSet {α : Type} : List (String × α) → String → α → List (String × α)
  | [], k, v => [(k, v)]
  | (k', v') :: rest, k, v =>
    if k' = k then (k, v) :: rest else (k', v') :: alSet rest k v

def alErase {α : Type} (l : List (String × α)) (k : String) : List (String × α) :=
  l.filter (fun e => ¬ (e.1 = k))

/-! ## Data model -/

/-- Chunk metadata as written by `Indexer.index_file`
(indexer.py lines 77-83). -/
structure ChunkMeta where
  file_path : String
  file_name : String
  mtime : Int
  chunk_index : Nat
  folder : String
deriving DecidableEq, Repr

/-- A chunk record in a Chroma collection; `E` is the (black-box) embedding
vector type. -/
structure ChunkRec (E : Type) where
  embedding : E
  document : List Char
  metadata : ChunkMeta
deriving DecidableEq, Repr

/-- A Chroma collection: association list from chunk id to record.  Chroma
keys records by id (ids are unique); id uniqueness is carried as a `Nodup`
hypothesis where a claim needs it. -/
abbrev Collection (E : Type) := List (String × ChunkRec E)

/-- One folder's entry in the file-index cache (cache.py lines 10-17):
`doc_count` (the collection's chunk count at last write; `none` models a
missing `"doc_count"` key) and the `{file → mtime}` map. -/
structure CacheEntry where
  doc_count : Option Nat
  files : List (String × Int)
deriving DecidableEq, Repr

/-- The whole cache document: `folder_path → entry`. -/
abbrev CacheData := List (String × CacheEntry)

/-- Folder states of the status tracker (status.py line 15). -/
inductive FolderState where
  | scanning
  | indexing
  | watching
deriving DecidableEq, Repr

/-- `status.FolderStatus` (status.py lines 13-20). -/
structure FolderStatus where
  state : FolderState
  total_files : Nat
  indexed_files : Nat
  current_file : Option String
  last_full_index : Option String
  collection : String
deriving DecidableEq, Repr

/-- The in-memory folder map of the status tracker. -/
abbrev StatusData := List (String × FolderStatus)

/-- What the daemon can observe of one regular file: its stat mtime
(`Int`; the code only compares mtimes for equality), the text that
`parser.parse_file` extracts (`none` models "not indexable": unknown
extension, extractor exception, or no text), and the absolute
symlink-resolved form of the path (what `Path.resolve()` would return;
recorded here because the code itself never calls `resolve()` on file
paths). -/
structure FileInfo where
  mtime : Int
  text : Option (List Char)
  resolved : String
deriving DecidableEq, Repr

/-- The visible filesystem: the finite set of regular files keyed by
absolute path string (as enumerated by `rglob` or delivered by watchdog
events).  A path not present is not a regular file. -/
abbrev Fs := List (String × FileInfo)

/-- `config.FolderConfig`: `path` is absolute and symlink-resolved at
config load (config.py line 54: `Path(entry["path"]).expanduser().resolve()`),
so `Path.resolve()` is the identity on it. -/
structure FolderConfig where
  path : String
  extensions : List String
deriving DecidableEq, Repr

/-- `config.Settings` (config.py lines 20-26); `model` and `batch_size`
are only handed to the black-box embedder. -/
structure Settings where
  model : String
  chunk_size : Nat
  chunk_overlap : Nat
  batch_size : Nat
deriving DecidableEq, Repr

/-- The daemon's mutable state: the store's collections (keyed by
collection name), the file-index cache document, and the status tracker's
folder map.  `run_daemon` (watcher.py lines 52-57) always constructs the
`Indexer` with all three present. -/
structure DaemonState (E : Type) where
  store : List (String × Collection E)
  cache : CacheData
  status : StatusData
deriving DecidableEq, Repr

/-! ## Vector store (`store.py`) -/

/-- `store.collection_name` (store.py lines 14-16):
`"search-" + sha256(str(folder_path.resolve()))[:16]`.  Folder paths in
the model are already resolved (config.py line 54), so `resolve()` is the
identity here. -/
def collection_name (folder_path : String) : String :=
  "search-" ++ ((Sha256.hexdigest folder_path).take 16).asString

namespace ChromaStore

variable {E : Type}

/-- `collection.upsert` for a single id (store.py lines 36-49): inserts or
replaces the chunk stored under `doc_id`. -/
def upsert (c : Collection E) (doc_id : String) (rec : ChunkRec E) : Collection E :=
  c.filter (fun e => ¬ (e.1 = doc_id)) ++ [(doc_id, rec)]

/-- `ChromaStore.delete_by_path` (store.py lines 51-57): fetch the ids of
all chunks whose metadata `file_path` equals the exact string, then delete
those ids.  Since Chroma ids are unique per collection, this removes
exactly the chunks whose `file_path` matches. -/
def delete_by_path (c : Collection E) (path_str : String) : Collection E :=
  c.filter (fun e => ¬ (e.2.metadata.file_path = path_str))

/-- `collection.count()`: the number of chunk records. -/
def count (c : Collection E) : Nat := c.length

/-- `ChromaStore.get_indexed_files` (store.py lines 59-66): scan all
metadata and return the last observed mtime per `file_path`. -/
def get_indexed_files (c : Collection E) : List (String × Int) :=
  c.foldl (fun m e => alSet m e.2.metadata.file_path e.2.metadata.mtime) []

end ChromaStore

/-- `ChromaStore.get_or_create_collection` (store.py lines 26-34) at the
level of the collection map: create an empty collection under the
folder's collection name if none exists. -/
def storeGetOrCreate {E : Type} (S : List (String × Collection E)) (folder_path : String) :
    List (String × Collection E) :=
  if (alGet S (collection_name folder_path)).isSome then S
  else S ++ [(collection_name folder_path, [])]

/-- The collection handle for a folder: the collection stored under its
name (empty if absent; every accessor in the code runs after
`get_or_create_collection`). -/
def storeColl {E : Type} (S : List (String × Collection E)) (folder_path : String) :
    Collection E :=
  (alGet S (collection_name folder_path)).getD []

/-- Apply a mutation to the folder's collection (all Chroma mutations go
through the handle returned by `get_or_create_collection`). -/
def storeUpd {E : Type} (S : List (String × Collection E)) (folder_path : String)
    (f : Collection E → Collection E) : List (String × Collection E) :=
  S.map (fun e => (e.1, if e.1 = collection_name folder_path then f e.2 else e.2))

/-! ## File-index cache (`cache.py`), steady-state (well-shaped) view.

`FileIndexCache._key(folder) = str(folder.resolve())` is the identity on
the already-resolved folder paths the daemon passes in.  The dynamic
(raw JSON) view used by `_load` is modelled separately below for the
error-handling claim. -/

namespace FileIndexCache

/-- `get_files` (cache.py lines 32-36): the `{path: mtime}` map cached for
a folder, empty when the folder has no entry. -/
def get_files (d : CacheData) (folder : String) : List (String × Int) :=
  ((alGet d folder).map (fun e => e.files)).getD []

/-- `get_doc_count` (cache.py lines 38-43): the doc count stored at last
write, `none` if the folder entry or its `"doc_count"` key is missing. -/
def get_doc_count (d : CacheData) (folder : String) : Option Nat :=
  (alGet d folder).bind (fun e => e.doc_count)

/-- `set_file` (cache.py lines 49-56): `setdefault` the folder entry, set
the file's mtime and overwrite `doc_count`. -/
def set_file (d : CacheData) (folder path : String) (mtime : Int) (doc_count : Nat) :
    CacheData :=
  let entry := (alGet d folder).getD { doc_count := some 0, files := [] }
  alSet d folder { doc_count := some doc_count, files := alSet entry.files path mtime }

/-- `remove_file` (cache.py lines 58-66): when the folder entry exists,
pop the file and overwrite `doc_count`; otherwise do nothing. -/
def remove_file (d : CacheData) (folder path : String) (doc_count : Nat) : CacheData :=
  match alGet d folder with
  | none => d
  | some entry =>
    alSet d folder { doc_count := some doc_count, files := alErase entry.files path }

/-- `invalidate` (cache.py lines 68-73): drop the folder's entry. -/
def invalidate (d : CacheData) (folder : String) : CacheData :=
  alErase d folder

end FileIndexCache

/-! ## Status tracker (`status.py`)

`StatusTracker._folder_key` resolves the (already resolved) folder path:
identity here.  Python's `last_full_index or ...` falsiness is modelled by
`Option.orElse`: the stored values are ISO timestamps, never the empty
string. -/

namespace StatusTracker

/-- `set_scanning` (status.py lines 34-47). -/
def set_scanning (d : StatusData) (folder : String) (total : Nat) : StatusData :=
  let existing := alGet d folder
  alSet d folder
    { state := .scanning, total_files := total, indexed_files := 0,
      current_file := none,
      last_full_index := existing.bind (fun e => e.last_full_index),
      collection := collection_name folder }

/-- `set_indexing` (status.py lines 49-64): updates the entry only when
one exists. -/
def set_indexing (d : StatusData) (folder : String) (indexed total : Nat)
    (current_file : String) : StatusData :=
  match alGet d folder with
  | none => d
  | some ex =>
    alSet d folder
      { ex with state := .indexing, indexed_files := indexed,
                total_files := total, current_file := some current_file }

/-- `set_watching` (status.py lines 66-92): updates the entry or creates
one. -/
def set_watching (d : StatusData) (folder : String) (total : Nat)
    (last_full_index : Option String) : StatusData :=
  let existing := alGet d folder
  let lfi := last_full_index.orElse (fun _ => existing.bind (fun e => e.last_full_index))
  match existing with
  | some ex =>
    alSet d folder
      { ex with state := .watching, total_files := total, indexed_files := total,
                current_file := none, last_full_index := lfi }
  | none =>
    alSet d folder
      { state := .watching, total_files := total, indexed_files := total,
        current_file := none, last_full_index := lfi,
        collection := collection_name folder }

end StatusTracker

/-! ## Indexer (`indexer.py`) -/

/-- `indexer._chunk_id` (indexer.py lines 17-19):
first 32 hex chars of `sha256(f"{file_path}:{chunk_index}")`. -/
def chunk_id (file_path : String) (chunk_index : Nat) : String :=
  ((Sha256.hexdigest (file_path ++ ":" ++ toString chunk_index)).take 32).asString

/-- Observable actions of a scan, used to state the claims about skipping,
invalidation and embedding calls. -/
inductive Ev where
  /-- `embedder.embed` was invoked while indexing this path. -/
  | embedCall (path : String)
  /-- the scan loop skipped this path via the cache hit (`continue`). -/
  | skip (path : String)
  /-- the scan loop called `index_file` on this path. -/
  | indexCall (path : String)
  /-- `cache.invalidate` ran for this folder during cache validation. -/
  | cacheInvalidated (folder : String)
deriving DecidableEq, Repr

namespace Indexer

variable {E : Type}

/-- The upsert loop of `index_file` (indexer.py lines 70-84): for each
`(i, (chunk, embedding))`, upsert under `chunk_id(path, i)` with the
metadata of lines 77-83. -/
def upsertChunks (file_path folder : String) (mtime : Int) :
    Nat → List (List Char × E) → Collection E → Collection E
  | _, [], coll => coll
  | i, (chunk, emb) :: rest, coll =>
    upsertChunks file_path folder mtime (i + 1) rest
      (ChromaStore.upsert coll (chunk_id file_path i)
        { embedding := emb, document := chunk,
          metadata :=
            { file_path := file_path, file_name := lastComponent file_path,
              mtime := mtime, chunk_index := i, folder := folder } })

/-- `Indexer.index_file` (indexer.py lines 35-93).  `embedF` is the
black-box embedder (`embedder.embed` with the configured model and batch
size); `scanIndexed`/`scanTotal` are the keyword-only scan-progress
arguments (`none` for a live event).  Returns the new state and the
observable events. -/
def index_file (s : Settings) (embedF : List (List Char) → List E) (fs : Fs)
    (folder : FolderConfig) (file_path : String)
    (scanIndexed scanTotal : Option Nat) (st : DaemonState E) :
    DaemonState E × List Ev :=
  if suffixLower file_path ∈ folder.extensions then
    match alGet fs file_path with
    | none => (st, [])
    | some fi =>
      let st1 : DaemonState E := { st with store := storeGetOrCreate st.store folder.path }
      let current_mtime := fi.mtime
      match fi.text with
      | none => (st1, [])
      | some text =>
        if pyStrip text = [] then (st1, [])
        else
          let chunks := chunk_text text s.chunk_size s.chunk_overlap
          if chunks = [] then (st1, [])
          else
            let st2 : DaemonState E :=
              { st1 with status :=
                  (StatusTracker.set_indexing st1.status folder.path
                    (scanIndexed.getD 0) (scanTotal.getD 1) (lastComponent file_path)) }
            let st3 : DaemonState E :=
              { st2 with store :=
                  (storeUpd st2.store folder.path
                    (fun c => ChromaStore.delete_by_path c file_path)) }
            let embeddings := embedF chunks
            let st4 : DaemonState E :=
              { st3 with store :=
                  (storeUpd st3.store folder.path
                    (upsertChunks file_path folder.path current_mtime 0
                      (chunks.zip embeddings))) }
            let st5 : DaemonState E :=
              { st4 with cache :=
                  (FileIndexCache.set_file st4.cache folder.path file_path current_mtime
                    (ChromaStore.count (storeColl st4.store folder.path))) }
            let st6 : DaemonState E :=
              if scanIndexed.isNone then
                { st5 with status :=
                    (StatusTracker.set_watching st5.status folder.path
                      (FileIndexCache.get_files st5.cache folder.path).length none) }
              else st5
            (st6, [Ev.embedCall file_path])
  else (st, [])

/-- `Indexer.remove_file` (indexer.py lines 95-103). -/
def remove_file (folder : FolderConfig) (file_path : String) (st : DaemonState E) :
    DaemonState E :=
  let st1 : DaemonState E := { st with store := storeGetOrCreate st.store folder.path }
  let st2 : DaemonState E :=
    { st1 with store :=
        (storeUpd st1.store folder.path
          (fun c => ChromaStore.delete_by_path c file_path)) }
  let st3 : DaemonState E :=
    { st2 with cache :=
        (FileIndexCache.remove_file st2.cache folder.path file_path
          (ChromaStore.count (storeColl st2.store folder.path))) }
  { st3 with status :=
      (StatusTracker.set_watching st3.status folder.path
        (FileIndexCache.get_files st3.cache folder.path).length none) }

/-- The eligible-file enumeration of `initial_scan` (indexer.py lines
110-113): the regular files under the folder with an allowed extension.
The model's `Fs` holds only regular files; `rglob` scoping is modelled as
the path-prefix test. -/
def eligibleFiles (fs : Fs) (folder : FolderConfig) : Fs :=
  fs.filter (fun e =>
    (folder.path ++ "/").data.isPrefixOf e.1.data ∧ suffixLower e.1 ∈ folder.extensions)

/-- The per-file loop of `initial_scan` (indexer.py lines 138-143): skip a
file when its cached mtime equals its current mtime, otherwise hand it to
`index_file` with the scan progress. -/
def scanLoop (s : Settings) (embedF : List (List Char) → List E) (fs : Fs)
    (folder : FolderConfig) (cached_files : List (String × Int)) (total : Nat) :
    List (String × FileInfo) → Nat → DaemonState E → DaemonState E × List Ev
  | [], _, st => (st, [])
  | (p, fi) :: rest, i, st =>
    if alGet cached_files p = some fi.mtime then
      let r := scanLoop s embedF fs folder cached_files total rest (i + 1) st
      (r.1, Ev.skip p :: r.2)
    else
      let r1 := index_file s embedF fs folder p (some i) (some total) st
      let r2 := scanLoop s embedF fs folder cached_files total rest (i + 1) r1.1
      (r2.1, Ev.indexCall p :: (r1.2 ++ r2.2))

/-- The pruning loop of `initial_scan` (indexer.py lines 150-155): for
each previously indexed path no longer on disk, delete its chunks and its
cache entry. -/
def pruneLoop (folder : FolderConfig) (on_disk : List String) :
    List String → DaemonState E → DaemonState E
  | [], st => st
  | p :: rest, st =>
    if p ∈ on_disk then pruneLoop folder on_disk rest st
    else
      let st1 : DaemonState E :=
        { st with store :=
            (storeUpd st.store folder.path
              (fun c => ChromaStore.delete_by_path c p)) }
      let st2 : DaemonState E :=
        { st1 with cache :=
            (FileIndexCache.remove_file st1.cache folder.path p
              (ChromaStore.count (storeColl st1.store folder.path))) }
      pruneLoop folder on_disk rest st2

/-- `Indexer.initial_scan` (indexer.py lines 105-164).  `now` is the
timestamp taken at line 161. -/
def initial_scan (s : Settings) (embedF : List (List Char) → List E) (fs : Fs)
    (folder : FolderConfig) (now : String) (st : DaemonState E) :
    DaemonState E × List Ev :=
  let st1 : DaemonState E := { st with store := storeGetOrCreate st.store folder.path }
  let eligible := eligibleFiles fs folder
  let on_disk := eligible.map Prod.fst
  let st2 : DaemonState E :=
    { st1 with status := StatusTracker.set_scanning st1.status folder.path eligible.length }
  let cached_doc_count := FileIndexCache.get_doc_count st2.cache folder.path
  let db_doc_count := ChromaStore.count (storeColl st2.store folder.path)
  let valid := cached_doc_count = some db_doc_count
  let cached_files :=
    if valid then FileIndexCache.get_files st2.cache folder.path else []
  let st3 : DaemonState E :=
    if valid then st2
    else { st2 with cache := FileIndexCache.invalidate st2.cache folder.path }
  let evs0 : List Ev := if valid then [] else [Ev.cacheInvalidated folder.path]
  let r := scanLoop s embedF fs folder cached_files eligible.length eligible 0 st3
  let indexed_paths :=
    if cached_files ≠ [] then cached_files.map Prod.fst
    else (ChromaStore.get_indexed_files (storeColl r.1.store folder.path)).map Prod.fst
  let st4 := pruneLoop folder on_disk indexed_paths r.1
  let st5 : DaemonState E :=
    { st4 with status :=
        (StatusTracker.set_watching st4.status folder.path eligible.length (some now)) }
  (st5, evs0 ++ r.2)

end Indexer

/-! ## Filesystem event handler (`watcher.py`) -/

namespace FileEventHandler

variable {E : Type}

/-- `FileEventHandler._relevant` (watcher.py lines 28-29):
extension-only test on the raw event path. -/
def relevant (folder : FolderConfig) (path : String) : Bool :=
  suffixLower path ∈ folder.extensions

/-- `on_created` (watcher.py lines 31-33): the raw `event.src_path` string
is handed to `index_file` as-is (no `resolve()`). -/
def on_created (s : Settings) (embedF : List (List Char) → List E) (fs : Fs)
    (folder : FolderConfig) (is_directory : Bool) (src_path : String)
    (st : DaemonState E) : DaemonState E :=
  if ¬ is_directory ∧ relevant folder src_path then
    (Indexer.index_file s embedF fs folder src_path none none st).1
  else st

/-- `on_modified` (watcher.py lines 35-37): same action as `on_created`. -/
def on_modified (s : Settings) (embedF : List (List Char) → List E) (fs : Fs)
    (folder : FolderConfig) (is_directory : Bool) (src_path : String)
    (st : DaemonState E) : DaemonState E :=
  if ¬ is_directory ∧ relevant folder src_path then
    (Indexer.index_file s embedF fs folder src_path none none st).1
  else st

/-- `on_deleted` (watcher.py lines 39-41). -/
def on_deleted (folder : FolderConfig) (is_directory : Bool) (src_path : String)
    (st : DaemonState E) : DaemonState E :=
  if ¬ is_directory ∧ relevant folder src_path then
    Indexer.remove_file folder src_path st
  else st

/-- `on_moved` (watcher.py lines 43-49): remove the source if relevant,
then index the destination if relevant. -/
def on_moved (s : Settings) (embedF : List (List Char) → List E) (fs : Fs)
    (folder : FolderConfig) (is_directory : Bool) (src_path dest_path : String)
    (st : DaemonState E) : DaemonState E :=
  if is_directory then st
  else
    let st1 := if relevant folder src_path then Indexer.remove_file folder src_path st else st
    if relevant folder dest_path then
      (Indexer.index_file s embedF fs folder dest_path none none st1).1
    else st1

end FileEventHandler

/-! ## Raw JSON values

`json.loads` produces dynamically-typed values; `Jv` is their model
(numbers as `Int`: the claims about raw JSON never do numeric
arithmetic). -/

inductive Jv where
  | null
  | bool (b : Bool)
  | num (n : Int)
  | str (s : String)
  | arr (l : List Jv)
  | obj (l : List (String × Jv))

/-- What a read of an on-disk JSON file can yield: the file is missing,
its bytes fail to parse (`json.JSONDecodeError`, or an `OSError` while
reading), or it parses to a JSON value. -/
inductive DiskContent where
  | missing
  | malformed
  | ok (v : Jv)

/-! ## Reindex mailbox (`reindexer.py`) -/

/-- `reindexer.pop_requests` (reindexer.py lines 35-45): missing file →
`[]` and no change; parse failure → `[]` and the file is left in place
(the `unlink` is skipped because `json.loads` raised first); a parsed
value → `unlink`, then return it if it is a list, else `[]`.  Returns the
result list and the file's state afterwards. -/
def pop_requests : DiskContent → List Jv × DiskContent
  | .missing => ([], .missing)
  | .malformed => ([], .malformed)
  | .ok v =>
    match v with
    | .arr l => (l, .missing)
    | _ => ([], .missing)

/-! ## Cache load and dynamically-typed reads (`cache.py`)

`FileIndexCache._load` (cache.py lines 79-84) catches only
`json.JSONDecodeError` and `OSError`; whatever JSON value the file parses
to is adopted as `self._data` unchecked.  The readers then apply `dict`
operations to it; on values of unexpected shape those Python operations
raise.  `CacheLoad` models that dynamic behaviour. -/

namespace CacheLoad

/-- Python exceptions the dynamically-typed cache reads can raise. -/
inductive PyErr where
  | attributeError
  | typeError
  | valueError
  | keyError
deriving DecidableEq, Repr

/-- `FileIndexCache._load`: `self._data` starts as `{}`; a parsed value
replaces it wholesale; a missing file or a caught exception leaves `{}`. -/
def load : DiskContent → Jv
  | .missing => .obj []
  | .malformed => .obj []
  | .ok v => v

/-- Python truthiness of a JSON-decoded value. -/
def pyTruthy : Jv → Bool
  | .null => false
  | .bool b => b
  | .num n => n ≠ 0
  | .str s => s ≠ ""
  | .arr l => ¬ l.isEmpty
  | .obj l => ¬ l.isEmpty

/-- `x.get(k, default)`: only dicts have `.get`; anything else raises
`AttributeError`. -/
def pyGet (d : Jv) (k : String) (dflt : Jv) : Except PyErr Jv :=
  match d with
  | .obj l => .ok ((alGet l k).getD dflt)
  | _ => .error .attributeError

/-- `x[k]` for a string key. -/
def pySubscript (d : Jv) (k : String) : Except PyErr Jv :=
  match d with
  | .obj l =>
    match alGet l k with
    | some v => .ok v
    | none => .error .keyError
  | _ => .error .typeError

/-- `k in x` for a string literal `k`: key test on dicts, membership on
lists, substring test on strings; `TypeError` on numbers etc. -/
def pyContains (k : String) : Jv → Except PyErr Bool
  | .obj l => .ok ((alGet l k).isSome)
  | .arr l => .ok (l.any (fun v => match v with | .str s => s = k | _ => false))
  | .str s =>
    .ok ((List.range (s.length + 1)).any (fun i => k.data.isPrefixOf (s.data.drop i)))
  | _ => .error .typeError

/-- `int(x)` on a JSON-decoded value: ints and floats convert (floats
truncate — mtime-free here), bools convert, numeric strings parse
(`ValueError` otherwise), anything else raises `TypeError`. -/
def pyInt : Jv → Except PyErr Int
  | .num n => .ok n
  | .bool b => .ok (if b then 1 else 0)
  | .str s =>
    match s.toInt? with
    | some n => .ok n
    | none => .error .valueError
  | _ => .error .typeError

/-- `dict(x)`: a dict copies; a list converts when every item is a
2-element sequence (2-element JSON array, or 2-character string whose
characters become the pair), raising `TypeError` on non-sequence items
and `ValueError` on wrong-length ones; everything else raises
`TypeError`.  Keys stay dynamic. -/
def pyDictItem : Jv → Except PyErr (Jv × Jv)
  | .arr [a, b] => .ok (a, b)
  | .arr _ => .error .valueError
  | .str s =>
    match s.data with
    | [a, b] => .ok (.str ⟨[a]⟩, .str ⟨[b]⟩)
    | _ => .error .valueError
  | _ => .error .typeError

def pyDict : Jv → Except PyErr (List (Jv × Jv))
  | .obj l => .ok (l.map (fun e => (.str e.1, e.2)))
  | .arr l => l.mapM pyDictItem
  | _ => .error .typeError

/-- `get_files` on the raw loaded data (cache.py lines 32-36):
`dict(self._data.get(key, {}).get("files", {}))`, each step propagating
the exception it raises. -/
def get_files (data : Jv) (folder : String) : Except PyErr (List (Jv × Jv)) :=
  match pyGet data folder (.obj []) with
  | .error e => .error e
  | .ok entry =>
    match pyGet entry "files" (.obj []) with
    | .error e => .error e
    | .ok files => pyDict files

/-- `get_doc_count` on the raw loaded data (cache.py lines 38-43):
`int(entry["doc_count"]) if entry and "doc_count" in entry else None`
after `entry = self._data.get(key)` (which needs `self._data` to be a
dict). -/
def get_doc_count (data : Jv) (folder : String) : Except PyErr (Option Int) :=
  match data with
  | .obj l =>
    match alGet l folder with
    | none => .ok none
    | some entry =>
      if pyTruthy entry then
        match pyContains "doc_count" entry with
        | .error e => .error e
        | .ok true =>
          match pySubscript entry "doc_count" with
          | .error e => .error e
          | .ok v =>
            match pyInt v with
            | .error e => .error e
            | .ok n => .ok (some n)
        | .ok false => .ok none
      else .ok none
  | _ => .error .attributeError

end CacheLoad

/-! ## Resolved-path view (for the path-identifier claim)

The code never calls `Path.resolve()` on file paths (only on folder
paths); `resolveOf` reads the filesystem's record of what resolution
would return. -/

/-- The absolute symlink-resolved string form of a regular file's path. -/
def resolveOf (fs : Fs) (p : String) : Option String :=
  (alGet fs p).map (fun fi => fi.resolved)

/-- The path-identifier invariant claimed by the spec for a daemon state:
every cache file key and every chunk metadata `file_path` is in
symlink-resolved form. -/
def identifiersResolved {E : Type} (fs : Fs) (st : DaemonState E) : Prop :=
  (∀ e ∈ st.cache, ∀ q ∈ e.2.files, resolveOf fs q.1 = some q.1) ∧
  (∀ c ∈ st.store, ∀ e ∈ c.2,
    resolveOf fs e.2.metadata.file_path = some e.2.metadata.file_path)

instance {E : Type} (fs : Fs) (st : DaemonState E) :
    Decidable (identifiersResolved fs st) := by
  unfold identifiersResolved
  infer_instance

/-! ## Concrete fixtures used by witnesses and counterexamples -/

/-- Witness embedder over the trivial vector type. -/
def wEmbed : List (List Char) → List Unit := fun l => l.map (fun _ => ())

def wSettings : Settings :=
  { model := "all-MiniLM-L6-v2", chunk_size := 4, chunk_overlap := 1, batch_size := 32 }

def wFolder : FolderConfig := { path := "/f", extensions := [".txt"] }

def wFileA : FileInfo := { mtime := 5, text := some "hi".data, resolved := "/f/a.txt" }

def wFs : Fs := [("/f/a.txt", wFileA)]

def wState0 : DaemonState Unit := { store := [], cache := [], status := [] }

/-- A cache whose `doc_count` (7) cannot match an empty store. -/
def wCacheStale : CacheData :=
  [("/f", { doc_count := some 7, files := [("/f/a.txt", 5)] })]

def wStateStale : DaemonState Unit := { store := [], cache := wCacheStale, status := [] }

/-- A cache whose `doc_count` (0) matches an empty store, with `a.txt`
cached at its on-disk mtime. -/
def wCacheValid : CacheData :=
  [("/f", { doc_count := some 0, files := [("/f/a.txt", 5)] })]

def wStateValid : DaemonState Unit := { store := [], cache := wCacheValid, status := [] }

/-- A symlink inside the watched folder: the path and its resolved form
differ. -/
def wLink : FileInfo := { mtime := 3, text := some "hi".data, resolved := "/real/a.txt" }

def wFsLink : Fs := [("/f/link.txt", wLink)]

/-- The expected schema of one folder entry of the cache document: an
object whose `"files"` value (when present) is an object and whose
`"doc_count"` value (when present) is a number. -/
def wellShapedEntry : Jv → Bool
  | .obj l =>
    (match alGet l "files" with
     | some (.obj _) => true
     | none => true
     | _ => false) &&
    (match alGet l "doc_count" with
     | some (.num _) => true
     | none => true
     | _ => false)
  | _ => false

/-- The expected schema of the whole cache document: an object of
well-shaped folder entries. -/
def wellShaped : Jv → Bool
  | .obj l => l.all (fun e => wellShapedEntry e.2)
  | _ => false

/-- The chunk ids `chunk_id p i, chunk_id p (i+1), ...` (one per chunk)
that `Indexer.upsertChunks` writes for `n` chunk/embedding pairs starting
at chunk index `i`. -/
def chunkIds (p : String) : Nat → Nat → List String
  | _, 0 => []
  | i, n + 1 => chunk_id p i :: chunkIds p (i + 1) n

/-! # Theorems -/

/-! ## Chunker lemmas -/

theorem pyStrip_length_le (l : List Char) : (pyStrip l).length ≤ l.length := by
  unfold pyStrip
  calc (((l.dropWhile isWS).reverse.dropWhile isWS).reverse).length
      = ((l.dropWhile isWS).reverse.dropWhile isWS).length := by simp
    _ ≤ (l.dropWhile isWS).reverse.length := (List.dropWhile_sublist _).length_le
    _ = (l.dropWhile isWS).length := by simp
    _ ≤ l.length := (List.dropWhile_sublist _).length_le

theorem pyStrip_ws (l : List Char) (h : ∀ c ∈ l, isWS c) : pyStrip l = [] := by
  unfold pyStrip
  have h1 : l.dropWhile isWS = [] := List.dropWhile_eq_nil_iff.mpr h
  simp [h1]

/-- With the step at most the window size, the chunker loop starting at
window `k` produces exactly the claim's windows from `k` on, stripped and
with empty strips dropped. -/
theorem chunkLoop_eq_specWindows (t : List Char) (size step : Nat) (hstep : step ≤ size) :
    ∀ fuel k, k * step < t.length →
      chunkLoop t size step fuel (k * step) =
        ((specWindows t size step fuel k).map pyStrip).filter (fun c => c ≠ []) := by
  intro fuel
  induction fuel with
  | zero => intro k _; rfl
  | succ fuel ih =>
    intro k hk
    rw [chunkLoop, specWindows]
    simp only [if_pos hk]
    by_cases hend : k * step + size ≥ t.length
    · simp only [if_pos hend]
      by_cases hc : pyStrip ((t.drop (k * step)).take size) = []
      · simp [hc]
      · simp [hc]
    · simp only [if_neg hend]
      have hk1 : (k + 1) * step < t.length := by
        have h1 : k * step + size < t.length := lt_of_not_ge hend
        have h2 : (k + 1) * step = k * step + step := by ring
        omega
      have hrec : k * step + step = (k + 1) * step := by ring
      rw [hrec, ih (k + 1) hk1]
      by_cases hc : pyStrip ((t.drop (k * step)).take size) = []
      · simp [hc]
      · simp [hc]

theorem chunkLoop_length_le (t : List Char) (size step : Nat) :
    ∀ fuel start, ∀ c ∈ chunkLoop t size step fuel start, c.length ≤ size := by
  intro fuel
  induction fuel with
  | zero => intro start c hc; simp [chunkLoop] at hc
  | succ fuel ih =>
    intro start c hc
    rw [chunkLoop] at hc
    by_cases hs : start < t.length
    · simp only [if_pos hs] at hc
      by_cases hend : start + size ≥ t.length
      · simp only [if_pos hend] at hc
        by_cases hstrip : pyStrip ((t.drop start).take size) = []
        · simp [hstrip] at hc
        · simp [hstrip] at hc
          subst hc
          calc (pyStrip ((t.drop start).take size)).length
              ≤ ((t.drop start).take size).length := pyStrip_length_le _
            _ ≤ size := by simp
      · simp only [if_neg hend] at hc
        by_cases hstrip : pyStrip ((t.drop start).take size) = []
        · simp only [hstrip, if_pos] at hc
          exact ih _ c (by simpa using hc)
        · simp only [if_neg hstrip] at hc
          rcases List.mem_cons.mp hc with h | h
          · subst h
            calc (pyStrip ((t.drop start).take size)).length
                ≤ ((t.drop start).take size).length := pyStrip_length_le _
              _ ≤ size := by simp
          · exact ih _ c h
    · simp [if_neg hs] at hc

/-- C6: for `0 < S` and `O < S`, `chunk_text T S O` is exactly the claim's
window sequence — windows `T[k*step .. k*step+S]` with
`step = max 1 (S-O)`, stopping once a window reaches the end, each window
stripped of whitespace and empty strips dropped; every chunk has length
at most `S`; an empty or all-whitespace `T` yields `[]`. -/
theorem C6_chunk_text_matches_spec_windows (t : List Char) (size overlap : Nat)
    (_hS : 0 < size) (hO : overlap < size) :
    chunk_text t size overlap = chunk_text_spec t size overlap ∧
    (∀ c ∈ chunk_text t size overlap, c.length ≤ size) ∧
    ((∀ c ∈ t, isWS c) → chunk_text t size overlap = []) := by
  refine ⟨?_, ?_, ?_⟩
  · unfold chunk_text chunk_text_spec
    by_cases h : pyStrip t = []
    · simp [h]
    · simp only [if_neg h]
      have hlen : 0 < t.length := by
        rcases t with _ | ⟨a, t⟩
        · simp [pyStrip] at h
        · simp
      have hstep : max 1 (size - overlap) ≤ size := by omega
      have := chunkLoop_eq_specWindows t size (max 1 (size - overlap)) hstep t.length 0
        (by simpa)
      simpa using this
  · intro c hc
    unfold chunk_text at hc
    by_cases h : pyStrip t = []
    · simp [h] at hc
    · simp only [if_neg h] at hc
      exact chunkLoop_length_le t size _ t.length 0 c hc
  · intro h
    unfold chunk_text
    simp [pyStrip_ws t h]

theorem C6_witness :
    chunk_text "hello world".data 5 2 = chunk_text_spec "hello world".data 5 2 ∧
    (∀ c ∈ chunk_text "hello world".data 5 2, c.length ≤ 5) ∧
    ((∀ c ∈ "hello world".data, isWS c) → chunk_text "hello world".data 5 2 = []) :=
  C6_chunk_text_matches_spec_windows "hello world".data 5 2 (by decide) (by decide)

/-- C7 counterexample: `"a b"` is a 3-character string, but
`chunk_text "a b" 1 0` returns 2 chunks, not 3 — the all-whitespace
middle window is stripped to empty and dropped. -/
theorem C7_counterexample :
    "a b".data.length = 3 ∧ (chunk_text "a b".data 1 0).length ≠ 3 := by
  constructor
  · decide
  · decide

/-- C7 (amended): for every 3-character string with no whitespace
characters, `chunk_text T 1 0` returns exactly 3 chunks. -/
theorem C7_three_char_three_chunks (t : List Char) (h3 : t.length = 3)
    (hws : ∀ c ∈ t, ¬ isWS c) :
    (chunk_text t 1 0).length = 3 := by
  match t, h3 with
  | [a, b, c], _ =>
    have ha : isWS a = false := by simpa using hws a (by simp)
    have hb : isWS b = false := by simpa using hws b (by simp)
    have hc : isWS c = false := by simpa using hws c (by simp)
    simp [chunk_text, chunkLoop, pyStrip, ha, hb, hc]

theorem C7_witness : (chunk_text "abc".data 1 0).length = 3 :=
  C7_three_char_three_chunks "abc".data (by decide) (by decide)

/-- C10: `pop_requests` returns the parsed list and deletes the mailbox
file when its content parses (a parsed non-list yields `[]`, still
deleting); a missing file or a parse failure yields `[]`; after a
successful drain the file is gone, so an immediately following
`pop_requests` returns `[]`. -/
theorem C10_pop_requests_drain :
    (∀ l : List Jv, pop_requests (.ok (.arr l)) = (l, .missing)) ∧
    (∀ v : Jv, (pop_requests (.ok v)).2 = .missing) ∧
    pop_requests .missing = ([], .missing) ∧
    (pop_requests .malformed).1 = [] ∧
    (∀ v : Jv, pop_requests (pop_requests (.ok v)).2 = ([], .missing)) := by
  refine ⟨fun l => rfl, fun v => ?_, rfl, rfl, fun v => ?_⟩
  · cases v <;> rfl
  · cases v <;> rfl

/-! ## Cache load/read claims -/

theorem alGet_mem {α : Type} (l : List (String × α)) (k : String) (v : α)
    (h : alGet l k = some v) : (k, v) ∈ l := by
  induction l with
  | nil => simp [alGet] at h
  | cons e rest ih =>
    obtain ⟨k', v'⟩ := e
    rw [alGet] at h
    by_cases hk : k' = k
    · simp only [if_pos hk] at h
      cases h
      subst hk
      exact List.mem_cons_self _ _
    · simp only [if_neg hk] at h
      exact List.mem_cons_of_mem _ (ih h)

/-- C9 counterexample: the file content `[]` is valid JSON, so `_load`
adopts it (no exception is caught), and then both readers raise
`AttributeError` — refuting "every subsequent read operation returns a
well-formed result rather than failing" for arbitrary on-disk content. -/
theorem C9_counterexample :
    CacheLoad.get_files (CacheLoad.load (.ok (.arr []))) "/f"
      = .error .attributeError ∧
    CacheLoad.get_doc_count (CacheLoad.load (.ok (.arr []))) "/f"
      = .error .attributeError :=
  ⟨rfl, rfl⟩

/-- C9 (amended): loading never raises in the modelled error cases — a
missing file or malformed (unparseable) content is treated as the empty
map — and the subsequent reads `get_files` and `get_doc_count` return
well-formed results provided the content was missing, malformed, or valid
JSON of the expected object schema; valid JSON of a different shape is
adopted as-is and reads then raise. -/
theorem C9_load_reads_wellformed (content : DiskContent)
    (h : content = .missing ∨ content = .malformed ∨
         ∃ v, content = .ok v ∧ wellShaped v = true) (folder : String) :
    (CacheLoad.load .missing = .obj [] ∧ CacheLoad.load .malformed = .obj []) ∧
    (CacheLoad.get_files (CacheLoad.load content) folder).isOk = true ∧
    (CacheLoad.get_doc_count (CacheLoad.load content) folder).isOk = true := by
  refine ⟨⟨rfl, rfl⟩, ?_⟩
  have hobj : ∀ l : List (String × Jv), (∀ e ∈ l, wellShapedEntry e.2 = true) →
      (CacheLoad.get_files (.obj l) folder).isOk = true ∧
      (CacheLoad.get_doc_count (.obj l) folder).isOk = true := by
    intro l hl
    constructor
    · rcases hget : alGet l folder with _ | entry
      · simp [CacheLoad.get_files, CacheLoad.pyGet, hget, CacheLoad.pyDict, alGet,
          Except.isOk, Except.toBool]
      · have hent : wellShapedEntry entry = true := hl (folder, entry) (alGet_mem _ _ _ hget)
        rcases entry with _ | b | n | s | el | el <;> simp [wellShapedEntry] at hent
        rcases hfiles : alGet el "files" with _ | fv
        · simp [CacheLoad.get_files, CacheLoad.pyGet, hget, hfiles, CacheLoad.pyDict,
            Except.isOk, Except.toBool]
        · rw [hfiles] at hent
          rcases fv with _ | b | n | s | fl | fl <;> simp at hent
          simp [CacheLoad.get_files, CacheLoad.pyGet, hget, hfiles, CacheLoad.pyDict,
            Except.isOk, Except.toBool]
    · rcases hget : alGet l folder with _ | entry
      · simp [CacheLoad.get_doc_count, hget, Except.isOk, Except.toBool]
      · have hent : wellShapedEntry entry = true := hl (folder, entry) (alGet_mem _ _ _ hget)
        rcases entry with _ | b | n | s | el | el <;> simp [wellShapedEntry] at hent
        by_cases htr : CacheLoad.pyTruthy (.obj el) = true
        · rcases hdc : alGet el "doc_count" with _ | dv
          · simp [CacheLoad.get_doc_count, hget, htr, CacheLoad.pyContains, hdc,
              Except.isOk, Except.toBool]
          · rw [hdc] at hent
            rcases dv with _ | b | n | s | dl | dl <;> simp at hent
            simp [CacheLoad.get_doc_count, hget, htr, CacheLoad.pyContains, hdc,
              CacheLoad.pySubscript, CacheLoad.pyInt, Except.isOk, Except.toBool]
        · simp [CacheLoad.get_doc_count, hget, Bool.of_not_eq_true htr, Except.isOk, Except.toBool]
  rcases h with rfl | rfl | ⟨v, rfl, hv⟩
  · exact hobj [] (by simp)
  · exact hobj [] (by simp)
  · rcases v with _ | b | n | s | vl | vl <;> simp [wellShaped] at hv
    exact hobj vl (by simpa [List.all_eq_true] using hv)

theorem C9_witness :
    (CacheLoad.load .missing = .obj [] ∧ CacheLoad.load .malformed = .obj []) ∧
    (CacheLoad.get_files
      (CacheLoad.load (.ok (.obj [("/f",
        .obj [("doc_count", .num 1), ("files", .obj [("/f/a.txt", .num 5)])])])))
      "/f").isOk = true ∧
    (CacheLoad.get_doc_count
      (CacheLoad.load (.ok (.obj [("/f",
        .obj [("doc_count", .num 1), ("files", .obj [("/f/a.txt", .num 5)])])])))
      "/f").isOk = true :=
  C9_load_reads_wellformed
    (.ok (.obj [("/f", .obj [("doc_count", .num 1), ("files", .obj [("/f/a.txt", .num 5)])])]))
    (Or.inr (Or.inr
      ⟨.obj [("/f", .obj [("doc_count", .num 1), ("files", .obj [("/f/a.txt", .num 5)])])],
       rfl, rfl⟩)) "/f"

/-! ## Association-list and store lemmas -/

theorem alGet_alSet_self {α : Type} (l : List (String × α)) (k : String) (v : α) :
    alGet (alSet l k v) k = some v := by
  induction l with
  | nil => simp [alSet, alGet]
  | cons e rest ih =>
    obtain ⟨k', v'⟩ := e
    by_cases hk : k' = k
    · simp [alSet, hk, alGet]
    · simp [alSet, hk, alGet, ih]

theorem alGet_alSet_ne {α : Type} (l : List (String × α)) (k k' : String) (v : α)
    (h : k ≠ k') : alGet (alSet l k v) k' = alGet l k' := by
  induction l with
  | nil => simp [alSet, alGet, h]
  | cons e rest ih =>
    obtain ⟨k0, v0⟩ := e
    by_cases hk : k0 = k
    · subst hk
      simp [alSet, alGet, h]
    · simp [alSet, hk, alGet, ih]

theorem alGet_alErase_self {α : Type} (l : List (String × α)) (k : String) :
    alGet (alErase l k) k = none := by
  induction l with
  | nil => rfl
  | cons e rest ih =>
    obtain ⟨k', v'⟩ := e
    by_cases hk : k' = k
    · simp [alErase, hk] at ih ⊢
      simpa [alErase] using ih
    · simp [alErase, hk] at ih ⊢
      simpa [alGet, hk, alErase] using ih

theorem alGet_storeUpd_self {E : Type} (S : List (String × Collection E))
    (folder : String) (g : Collection E → Collection E) :
    alGet (storeUpd S folder g) (collection_name folder)
      = (alGet S (collection_name folder)).map g := by
  induction S with
  | nil => rfl
  | cons e rest ih =>
    obtain ⟨n, c⟩ := e
    simp only [storeUpd, List.map_cons] at ih ⊢
    by_cases hn : n = collection_name folder
    · simp [alGet, hn]
    · simp only [alGet, if_neg hn, ih]

theorem alGet_storeUpd_ne {E : Type} (S : List (String × Collection E))
    (folder k : String) (g : Collection E → Collection E)
    (h : ¬ k = collection_name folder) : alGet (storeUpd S folder g) k = alGet S k := by
  induction S with
  | nil => rfl
  | cons e rest ih =>
    obtain ⟨n, c⟩ := e
    by_cases hn : n = k
    · subst hn
      simp [storeUpd, alGet, h]
    · simp only [storeUpd, List.map_cons, alGet, if_neg hn] at ih ⊢
      exact ih

theorem storeColl_storeGetOrCreate {E : Type} (S : List (String × Collection E))
    (folder : String) :
    alGet (storeGetOrCreate S folder) (collection_name folder)
      = some (storeColl S folder) := by
  unfold storeGetOrCreate storeColl
  rcases h : alGet S (collection_name folder) with _ | c
  · simp [h]
    induction S with
    | nil => simp [alGet]
    | cons e rest ih =>
      obtain ⟨n, c0⟩ := e
      by_cases hn : n = collection_name folder
      · simp [alGet, hn] at h
      · rw [alGet] at h
        simp only [if_neg hn] at h
        simpa [alGet, hn] using ih h
  · simp [h]

/-- `get_doc_count` right after `set_file` reports exactly the count that
`set_file` was handed. -/
theorem get_doc_count_set_file (d : CacheData) (folder path : String) (m : Int) (n : Nat) :
    FileIndexCache.get_doc_count (FileIndexCache.set_file d folder path m n) folder
      = some n := by
  unfold FileIndexCache.get_doc_count FileIndexCache.set_file
  rw [alGet_alSet_self]
  rfl

/-- C2: whenever `index_file` performs its store mutations (the
delete-then-upsert path, observable as the `embedCall` event), the
`doc_count` the cache records for the folder equals the collection's
chunk count observed after those mutations (the final collection of the
call). -/
theorem C2_index_file_doc_count {E : Type} (s : Settings)
    (embedF : List (List Char) → List E) (fs : Fs) (folder : FolderConfig)
    (file_path : String) (scanIndexed scanTotal : Option Nat) (st : DaemonState E)
    (h : Ev.embedCall file_path ∈
      (Indexer.index_file s embedF fs folder file_path scanIndexed scanTotal st).2) :
    FileIndexCache.get_doc_count
        (Indexer.index_file s embedF fs folder file_path scanIndexed scanTotal st).1.cache
        folder.path
      = some (ChromaStore.count (storeColl
          (Indexer.index_file s embedF fs folder file_path scanIndexed scanTotal st).1.store
          folder.path)) := by
  by_cases hext : suffixLower file_path ∈ folder.extensions
  · rcases hfi : alGet fs file_path with _ | fi
    · simp [Indexer.index_file, hext, hfi] at h
    · rcases htext : fi.text with _ | text
      · simp [Indexer.index_file, hext, hfi, htext] at h
      · by_cases hstrip : pyStrip text = []
        · simp [Indexer.index_file, hext, hfi, htext, hstrip] at h
        · by_cases hchunks : chunk_text text s.chunk_size s.chunk_overlap = []
          · simp [Indexer.index_file, hext, hfi, htext, hstrip, hchunks] at h
          · rcases hsi : scanIndexed with _ | i
            · simp only [Indexer.index_file, if_pos hext, hfi, htext, if_neg hstrip,
                if_neg hchunks, hsi, Option.isNone_none, if_pos]
              rw [get_doc_count_set_file]
            · simp only [Indexer.index_file, if_pos hext, hfi, htext, if_neg hstrip,
                if_neg hchunks, hsi, Option.isNone_some, Bool.false_eq_true, if_false]
              rw [get_doc_count_set_file]
  · simp [Indexer.index_file, hext] at h

theorem C2_witness :
    FileIndexCache.get_doc_count
        (Indexer.index_file wSettings wEmbed wFs wFolder "/f/a.txt" none none wState0).1.cache
        "/f"
      = some (ChromaStore.count (storeColl
          (Indexer.index_file wSettings wEmbed wFs wFolder "/f/a.txt" none none wState0).1.store
          "/f")) :=
  C2_index_file_doc_count wSettings wEmbed wFs wFolder "/f/a.txt" none none wState0
    (by decide)

/-! ## remove_file claims -/

theorem storeColl_upd_getOrCreate {E : Type} (S : List (String × Collection E))
    (f : String) (g : Collection E → Collection E) :
    storeColl (storeUpd (storeGetOrCreate S f) f g) f = g (storeColl S f) := by
  unfold storeColl
  rw [alGet_storeUpd_self, storeColl_storeGetOrCreate]
  rfl

theorem set_watching_state (d : StatusData) (f : String) (t : Nat) (l : Option String) :
    (alGet (StatusTracker.set_watching d f t l) f).map FolderStatus.state
      = some .watching := by
  unfold StatusTracker.set_watching
  rcases h : alGet d f with _ | ex
  · simp [h, alGet_alSet_self]
  · simp [h, alGet_alSet_self]

theorem get_files_remove_self (d : CacheData) (f p : String) (n : Nat) :
    alGet (FileIndexCache.get_files (FileIndexCache.remove_file d f p n) f) p = none := by
  unfold FileIndexCache.remove_file FileIndexCache.get_files
  rcases h : alGet d f with _ | entry
  · simp [h, alGet]
  · simp [h, alGet_alSet_self, alGet_alErase_self]

theorem get_doc_count_remove (d : CacheData) (f p : String) (n : Nat)
    (entry : CacheEntry) (h : alGet d f = some entry) :
    FileIndexCache.get_doc_count (FileIndexCache.remove_file d f p n) f = some n := by
  unfold FileIndexCache.remove_file FileIndexCache.get_doc_count
  simp [h, alGet_alSet_self]

/-- C5 counterexample: with an empty cache (reachable after a force-reindex
invalidation, for example), `remove_file` never writes a `doc_count` for
the folder — `cache.remove_file` is a no-op when the folder has no entry
(cache.py lines 62-65) — so `doc_count` stays absent and does not equal
the collection's count. -/
theorem C5_counterexample :
    ¬ (FileIndexCache.get_doc_count
          (Indexer.remove_file wFolder "/f/a.txt" wState0).cache "/f"
        = some (ChromaStore.count
            (storeColl (Indexer.remove_file wFolder "/f/a.txt" wState0).store "/f"))) := by
  intro h
  have h0 : FileIndexCache.get_doc_count
      (Indexer.remove_file wFolder "/f/a.txt" wState0).cache "/f" = none := rfl
  rw [h0] at h
  cases h

/-- C5 (amended): after `remove_file(F, P)`, no chunk in F's collection
has metadata `file_path` equal to P, the cache has no entry for P under
F, and F's status is `watching` — all unconditionally; moreover, provided
the cache had an entry for F before the call, the cache's `doc_count`
for F equals the collection's count observed after the deletion. -/
theorem C5_remove_file_post {E : Type} (folder : FolderConfig) (p : String)
    (st : DaemonState E) :
    (∀ e ∈ storeColl (Indexer.remove_file folder p st).store folder.path,
        ¬ e.2.metadata.file_path = p) ∧
    alGet (FileIndexCache.get_files (Indexer.remove_file folder p st).cache folder.path)
        p = none ∧
    ((alGet st.cache folder.path).isSome = true →
      FileIndexCache.get_doc_count (Indexer.remove_file folder p st).cache folder.path
        = some (ChromaStore.count
            (storeColl (Indexer.remove_file folder p st).store folder.path))) ∧
    (alGet (Indexer.remove_file folder p st).status folder.path).map FolderStatus.state
      = some .watching := by
  have hstore : (Indexer.remove_file folder p st).store
      = storeUpd (storeGetOrCreate st.store folder.path) folder.path
          (fun c => ChromaStore.delete_by_path c p) := rfl
  have hcache : (Indexer.remove_file folder p st).cache
      = FileIndexCache.remove_file st.cache folder.path p
          (ChromaStore.count
            (storeColl (storeUpd (storeGetOrCreate st.store folder.path) folder.path
              (fun c => ChromaStore.delete_by_path c p)) folder.path)) := rfl
  refine ⟨?_, ?_, ?_, ?_⟩
  · intro e he
    rw [hstore, storeColl_upd_getOrCreate] at he
    have := List.mem_filter.mp he
    simpa using this.2
  · rw [hcache]
    exact get_files_remove_self _ _ _ _
  · intro hentry
    obtain ⟨entry, hent⟩ := Option.isSome_iff_exists.mp hentry
    rw [hcache, hstore]
    exact get_doc_count_remove _ _ _ _ entry hent
  · exact set_watching_state _ _ _ _

theorem C5_witness :
    (∀ e ∈ storeColl (Indexer.remove_file wFolder "/f/a.txt" wStateValid).store "/f",
        ¬ e.2.metadata.file_path = "/f/a.txt") ∧
    alGet (FileIndexCache.get_files
        (Indexer.remove_file wFolder "/f/a.txt" wStateValid).cache "/f") "/f/a.txt"
      = none ∧
    FileIndexCache.get_doc_count
        (Indexer.remove_file wFolder "/f/a.txt" wStateValid).cache "/f"
      = some (ChromaStore.count
          (storeColl (Indexer.remove_file wFolder "/f/a.txt" wStateValid).store "/f")) ∧
    (alGet (Indexer.remove_file wFolder "/f/a.txt" wStateValid).status "/f").map
        FolderStatus.state
      = some .watching :=
  ⟨(C5_remove_file_post wFolder "/f/a.txt" wStateValid).1,
   (C5_remove_file_post wFolder "/f/a.txt" wStateValid).2.1,
   (C5_remove_file_post wFolder "/f/a.txt" wStateValid).2.2.1 (by decide),
   (C5_remove_file_post wFolder "/f/a.txt" wStateValid).2.2.2⟩

/-! ## Scan-loop event lemmas -/

theorem index_file_events {E : Type} (s : Settings) (embedF : List (List Char) → List E)
    (fs : Fs) (folder : FolderConfig) (p : String) (si stt : Option Nat)
    (st : DaemonState E) :
    (Indexer.index_file s embedF fs folder p si stt st).2 = []
    ∨ (Indexer.index_file s embedF fs folder p si stt st).2 = [Ev.embedCall p] := by
  by_cases hext : suffixLower p ∈ folder.extensions
  · rcases hfi : alGet fs p with _ | fi
    · left; simp [Indexer.index_file, hext, hfi]
    · rcases htext : fi.text with _ | text
      · left; simp [Indexer.index_file, hext, hfi, htext]
      · by_cases hstrip : pyStrip text = []
        · left; simp [Indexer.index_file, hext, hfi, htext, hstrip]
        · by_cases hch : chunk_text text s.chunk_size s.chunk_overlap = []
          · left; simp [Indexer.index_file, hext, hfi, htext, hstrip, hch]
          · right
            rcases hsi : si with _ | i <;>
              simp [Indexer.index_file, hext, hfi, htext, hstrip, hch, hsi]
  · left; simp [Indexer.index_file, hext]

theorem scanLoop_skip_mem {E : Type} (s : Settings) (embedF : List (List Char) → List E)
    (fs : Fs) (folder : FolderConfig) (cached : List (String × Int)) (total : Nat) :
    ∀ (l : List (String × FileInfo)) (i : Nat) (st : DaemonState E) (q : String),
      Ev.skip q ∈ (Indexer.scanLoop s embedF fs folder cached total l i st).2 →
      ∃ fi, (q, fi) ∈ l ∧ alGet cached q = some fi.mtime := by
  intro l
  induction l with
  | nil => intro i st q h; simp [Indexer.scanLoop] at h
  | cons e rest ih =>
    obtain ⟨p, fi⟩ := e
    intro i st q h
    rw [Indexer.scanLoop] at h
    by_cases hc : alGet cached p = some fi.mtime
    · simp only [if_pos hc] at h
      rcases List.mem_cons.mp h with h | h
      · cases h
        exact ⟨fi, List.mem_cons_self _ _, hc⟩
      · obtain ⟨fi', hm, hg⟩ := ih (i + 1) st q h
        exact ⟨fi', List.mem_cons_of_mem _ hm, hg⟩
    · simp only [if_neg hc] at h
      rcases List.mem_cons.mp h with h | h
      · cases h
      · rcases List.mem_append.mp h with h | h
        · rcases index_file_events s embedF fs folder p (some i) (some total) st
            with he | he <;> rw [he] at h <;> simp at h
        · obtain ⟨fi', hm, hg⟩ := ih (i + 1) _ q h
          exact ⟨fi', List.mem_cons_of_mem _ hm, hg⟩

theorem scanLoop_skip_of_cached {E : Type} (s : Settings)
    (embedF : List (List Char) → List E) (fs : Fs) (folder : FolderConfig)
    (cached : List (String × Int)) (total : Nat) :
    ∀ (l : List (String × FileInfo)) (i : Nat) (st : DaemonState E) (q : String)
      (fi : FileInfo), (q, fi) ∈ l → alGet cached q = some fi.mtime →
      Ev.skip q ∈ (Indexer.scanLoop s embedF fs folder cached total l i st).2 := by
  intro l
  induction l with
  | nil => intro i st q fi h; simp at h
  | cons e rest ih =>
    obtain ⟨p, pfi⟩ := e
    intro i st q fi hmem hc
    rw [Indexer.scanLoop]
    rcases List.mem_cons.mp hmem with heq | hmem'
    · cases heq
      simp only [if_pos hc]
      exact List.mem_cons_self _ _
    · by_cases hcp : alGet cached p = some pfi.mtime
      · simp only [if_pos hcp]
        exact List.mem_cons_of_mem _ (ih (i + 1) st q fi hmem' hc)
      · simp only [if_neg hcp]
        refine List.mem_cons_of_mem _ (List.mem_append.mpr (Or.inr ?_))
        exact ih (i + 1) _ q fi hmem' hc

theorem scanLoop_embed_mem {E : Type} (s : Settings) (embedF : List (List Char) → List E)
    (fs : Fs) (folder : FolderConfig) (cached : List (String × Int)) (total : Nat) :
    ∀ (l : List (String × FileInfo)) (i : Nat) (st : DaemonState E) (q : String),
      Ev.embedCall q ∈ (Indexer.scanLoop s embedF fs folder cached total l i st).2 →
      ∃ fi, (q, fi) ∈ l ∧ ¬ alGet cached q = some fi.mtime := by
  intro l
  induction l with
  | nil => intro i st q h; simp [Indexer.scanLoop] at h
  | cons e rest ih =>
    obtain ⟨p, fi⟩ := e
    intro i st q h
    rw [Indexer.scanLoop] at h
    by_cases hc : alGet cached p = some fi.mtime
    · simp only [if_pos hc] at h
      rcases List.mem_cons.mp h with h | h
      · cases h
      · obtain ⟨fi', hm, hg⟩ := ih (i + 1) st q h
        exact ⟨fi', List.mem_cons_of_mem _ hm, hg⟩
    · simp only [if_neg hc] at h
      rcases List.mem_cons.mp h with h | h
      · cases h
      · rcases List.mem_append.mp h with h | h
        · rcases index_file_events s embedF fs folder p (some i) (some total) st
            with he | he <;> rw [he] at h <;> simp at h
          cases h
          exact ⟨fi, List.mem_cons_self _ _, hc⟩
        · obtain ⟨fi', hm, hg⟩ := ih (i + 1) _ q h
          exact ⟨fi', List.mem_cons_of_mem _ hm, hg⟩

theorem scanLoop_indexCall_mem {E : Type} (s : Settings)
    (embedF : List (List Char) → List E) (fs : Fs) (folder : FolderConfig)
    (cached : List (String × Int)) (total : Nat) :
    ∀ (l : List (String × FileInfo)) (i : Nat) (st : DaemonState E) (q : String)
      (fi : FileInfo), (q, fi) ∈ l → ¬ alGet cached q = some fi.mtime →
      Ev.indexCall q ∈ (Indexer.scanLoop s embedF fs folder cached total l i st).2 := by
  intro l
  induction l with
  | nil => intro i st q fi h; simp at h
  | cons e rest ih =>
    obtain ⟨p, pfi⟩ := e
    intro i st q fi hmem hc
    rw [Indexer.scanLoop]
    rcases List.mem_cons.mp hmem with heq | hmem'
    · cases heq
      simp only [if_neg hc]
      exact List.mem_cons_self _ _
    · by_cases hcp : alGet cached p = some pfi.mtime
      · simp only [if_pos hcp]
        exact List.mem_cons_of_mem _ (ih (i + 1) st q fi hmem' hc)
      · simp only [if_neg hcp]
        refine List.mem_cons_of_mem _ (List.mem_append.mpr (Or.inr ?_))
        exact ih (i + 1) _ q fi hmem' hc

theorem scanLoop_no_invalidated {E : Type} (s : Settings)
    (embedF : List (List Char) → List E) (fs : Fs) (folder : FolderConfig)
    (cached : List (String × Int)) (total : Nat) :
    ∀ (l : List (String × FileInfo)) (i : Nat) (st : DaemonState E) (f : String),
      Ev.cacheInvalidated f ∉ (Indexer.scanLoop s embedF fs folder cached total l i st).2 := by
  intro l
  induction l with
  | nil => intro i st f h; simp [Indexer.scanLoop] at h
  | cons e rest ih =>
    obtain ⟨p, fi⟩ := e
    intro i st f h
    rw [Indexer.scanLoop] at h
    by_cases hc : alGet cached p = some fi.mtime
    · simp only [if_pos hc] at h
      rcases List.mem_cons.mp h with h | h
      · cases h
      · exact ih (i + 1) st f h
    · simp only [if_neg hc] at h
      rcases List.mem_cons.mp h with h | h
      · cases h
      · rcases List.mem_append.mp h with h | h
        · rcases index_file_events s embedF fs folder p (some i) (some total) st
            with he | he <;> rw [he] at h <;> simp at h
        · exact ih (i + 1) _ f h

/-- Keys-unique association lists determine the value from the key. -/
theorem mem_unique_of_nodup_keys {α : Type} :
    ∀ (l : List (String × α)), (l.map Prod.fst).Nodup →
      ∀ (p : String) (v v' : α), (p, v) ∈ l → (p, v') ∈ l → v = v' := by
  intro l
  induction l with
  | nil => intro _ p v v' h; simp at h
  | cons e rest ih =>
    obtain ⟨q, w⟩ := e
    intro hnd p v v' hv hv'
    have hnd1 : q ∉ rest.map Prod.fst := by
      simp only [List.map_cons, List.nodup_cons] at hnd
      exact hnd.1
    have hnd2 : (rest.map Prod.fst).Nodup := by
      simp only [List.map_cons, List.nodup_cons] at hnd
      exact hnd.2
    rcases List.mem_cons.mp hv with h1 | h1 <;> rcases List.mem_cons.mp hv' with h2 | h2
    · simp only [Prod.mk.injEq] at h1 h2
      rw [h1.2, h2.2]
    · simp only [Prod.mk.injEq] at h1
      rw [h1.1] at h2
      exact absurd (List.mem_map.mpr ⟨(q, v'), h2, rfl⟩) hnd1
    · simp only [Prod.mk.injEq] at h2
      rw [h2.1] at h1
      exact absurd (List.mem_map.mpr ⟨(q, v), h1, rfl⟩) hnd1
    · exact ih hnd2 p v v' h1 h2

/-! ## Initial-scan cache-validation claims -/

/-- C1: `initial_scan` adopts the cached `{file → mtime}` map for skip
decisions iff the stored `doc_count` is present and equals the
collection's count read at scan time (a skip happens exactly on a cached
mtime hit); in every other case it invalidates the folder's cache entry
and proceeds with an empty map, so no file is skipped and every eligible
file is handed to `index_file`. -/
theorem C1_initial_scan_cache_validation {E : Type} (s : Settings)
    (embedF : List (List Char) → List E) (fs : Fs) (folder : FolderConfig)
    (now : String) (st : DaemonState E) (hnodup : (fs.map Prod.fst).Nodup) :
    (FileIndexCache.get_doc_count st.cache folder.path
        = some (ChromaStore.count (storeColl (storeGetOrCreate st.store folder.path)
            folder.path)) →
      Ev.cacheInvalidated folder.path ∉ (Indexer.initial_scan s embedF fs folder now st).2 ∧
      (∀ p fi, (p, fi) ∈ Indexer.eligibleFiles fs folder →
        (Ev.skip p ∈ (Indexer.initial_scan s embedF fs folder now st).2 ↔
          alGet (FileIndexCache.get_files st.cache folder.path) p = some fi.mtime))) ∧
    (¬ FileIndexCache.get_doc_count st.cache folder.path
        = some (ChromaStore.count (storeColl (storeGetOrCreate st.store folder.path)
            folder.path)) →
      Ev.cacheInvalidated folder.path ∈ (Indexer.initial_scan s embedF fs folder now st).2 ∧
      (∀ p, Ev.skip p ∉ (Indexer.initial_scan s embedF fs folder now st).2) ∧
      (∀ p fi, (p, fi) ∈ Indexer.eligibleFiles fs folder →
        Ev.indexCall p ∈ (Indexer.initial_scan s embedF fs folder now st).2)) := by
  have hnodE : ((Indexer.eligibleFiles fs folder).map Prod.fst).Nodup :=
    hnodup.sublist ((List.filter_sublist _).map _)
  constructor
  · intro hval
    have h2 : ∃ st3 : DaemonState E, (Indexer.initial_scan s embedF fs folder now st).2
        = (Indexer.scanLoop s embedF fs folder
            (FileIndexCache.get_files st.cache folder.path)
            (Indexer.eligibleFiles fs folder).length
            (Indexer.eligibleFiles fs folder) 0 st3).2 :=
      ⟨_, by simp only [Indexer.initial_scan, if_pos hval, List.nil_append]; exact rfl⟩
    obtain ⟨st3, h2⟩ := h2
    constructor
    · rw [h2]
      exact scanLoop_no_invalidated s embedF fs folder _ _ _ 0 st3 folder.path
    · intro p fi hmem
      constructor
      · intro hskip
        rw [h2] at hskip
        obtain ⟨fi', hm, hg⟩ :=
          scanLoop_skip_mem s embedF fs folder _ _ _ 0 st3 p hskip
        rw [mem_unique_of_nodup_keys _ hnodE p fi' fi hm hmem] at hg
        exact hg
      · intro hc
        rw [h2]
        exact scanLoop_skip_of_cached s embedF fs folder _ _ _ 0 st3 p fi hmem hc
  · intro hval
    have h2 : ∃ st3 : DaemonState E, (Indexer.initial_scan s embedF fs folder now st).2
        = Ev.cacheInvalidated folder.path ::
          (Indexer.scanLoop s embedF fs folder ([] : List (String × Int))
            (Indexer.eligibleFiles fs folder).length
            (Indexer.eligibleFiles fs folder) 0 st3).2 :=
      ⟨_, by simp only [Indexer.initial_scan, if_neg hval]; rfl⟩
    obtain ⟨st3, h2⟩ := h2
    refine ⟨?_, ?_, ?_⟩
    · rw [h2]
      exact List.mem_cons_self _ _
    · intro p hskip
      rw [h2] at hskip
      rcases List.mem_cons.mp hskip with h | h
      · cases h
      · obtain ⟨fi', _, hg⟩ := scanLoop_skip_mem s embedF fs folder _ _ _ 0 st3 p h
        simp [alGet] at hg
    · intro p fi hmem
      rw [h2]
      refine List.mem_cons_of_mem _ ?_
      exact scanLoop_indexCall_mem s embedF fs folder _ _ _ 0 st3 p fi hmem
        (by simp [alGet])

theorem C1_witness :
    Ev.cacheInvalidated "/f" ∈
      (Indexer.initial_scan wSettings wEmbed wFs wFolder "t" wStateStale).2 :=
  ((C1_initial_scan_cache_validation wSettings wEmbed wFs wFolder "t" wStateStale
    (by decide)).2 (by decide)).1

/-- C4 counterexample: the cache records `/f/a.txt → 5` and the
filesystem reports mtime 5, yet the scan embeds the file — because the
cache's `doc_count` (7) does not match the empty collection's count (0),
validation discards the whole cached map before the skip check. -/
theorem C4_counterexample :
    alGet (FileIndexCache.get_files wStateStale.cache "/f") "/f/a.txt" = some 5 ∧
    (alGet wFs "/f/a.txt").map FileInfo.mtime = some 5 ∧
    Ev.embedCall "/f/a.txt" ∈
      (Indexer.initial_scan wSettings wEmbed wFs wFolder "t" wStateStale).2 := by
  refine ⟨by decide, by decide, by decide⟩

/-- C4 (amended): if the cache passes the scan's consistency check (its
`doc_count` equals the collection count read at scan time), the cache
records `P → m` for F, and the filesystem reports the same mtime `m` for
P, then `initial_scan(F)` performs zero embedding calls for P. -/
theorem C4_cached_mtime_skips_embedding {E : Type} (s : Settings)
    (embedF : List (List Char) → List E) (fs : Fs) (folder : FolderConfig)
    (now : String) (st : DaemonState E) (hnodup : (fs.map Prod.fst).Nodup)
    (hval : FileIndexCache.get_doc_count st.cache folder.path
      = some (ChromaStore.count (storeColl (storeGetOrCreate st.store folder.path)
          folder.path)))
    (p : String) (fi : FileInfo) (hmem : (p, fi) ∈ Indexer.eligibleFiles fs folder)
    (hc : alGet (FileIndexCache.get_files st.cache folder.path) p = some fi.mtime) :
    Ev.embedCall p ∉ (Indexer.initial_scan s embedF fs folder now st).2 := by
  have hnodE : ((Indexer.eligibleFiles fs folder).map Prod.fst).Nodup :=
    hnodup.sublist ((List.filter_sublist _).map _)
  have h2 : ∃ st3 : DaemonState E, (Indexer.initial_scan s embedF fs folder now st).2
      = (Indexer.scanLoop s embedF fs folder
          (FileIndexCache.get_files st.cache folder.path)
          (Indexer.eligibleFiles fs folder).length
          (Indexer.eligibleFiles fs folder) 0 st3).2 :=
    ⟨_, by simp only [Indexer.initial_scan, if_pos hval, List.nil_append]; exact rfl⟩
  obtain ⟨st3, h2⟩ := h2
  intro h
  rw [h2] at h
  obtain ⟨fi', hm, hg⟩ := scanLoop_embed_mem s embedF fs folder _ _ _ 0 st3 p h
  rw [mem_unique_of_nodup_keys _ hnodE p fi' fi hm hmem] at hg
  exact hg hc

theorem C4_witness :
    Ev.embedCall "/f/a.txt" ∉
      (Indexer.initial_scan wSettings wEmbed wFs wFolder "t" wStateValid).2 :=
  C4_cached_mtime_skips_embedding wSettings wEmbed wFs wFolder "t" wStateValid
    (by decide) (by decide) "/f/a.txt" wFileA (by decide) (by decide)

/-! ## Upsert-loop lemmas (for idempotence and id uniqueness) -/

theorem upsertChunks_normal {E : Type} (p f : String) (m : Int) :
    ∀ (pairs : List (List Char × E)) (i : Nat) (X : Collection E),
      Indexer.upsertChunks p f m i pairs X
        = X.filter (fun e => ¬ e.1 ∈ chunkIds p i pairs.length)
          ++ Indexer.upsertChunks p f m i pairs [] := by
  intro pairs
  induction pairs with
  | nil => intro i X; simp [Indexer.upsertChunks, chunkIds]
  | cons pr rest ih =>
    obtain ⟨c, emb⟩ := pr
    intro i X
    rw [Indexer.upsertChunks]
    rw [ih (i + 1)]
    rw [show Indexer.upsertChunks p f m i ((c, emb) :: rest) ([] : Collection E)
        = Indexer.upsertChunks p f m (i + 1) rest
            (ChromaStore.upsert ([] : Collection E) (chunk_id p i)
              { embedding := emb, document := c,
                metadata :=
                  { file_path := p, file_name := lastComponent p,
                    mtime := m, chunk_index := i, folder := f } }) from rfl]
    rw [ih (i + 1)]
    simp only [ChromaStore.upsert, List.filter_append, List.append_assoc, List.length_cons,
      List.filter_filter, List.nil_append]
    congr 1
    · apply List.filter_congr
      intro e _
      simp [chunkIds, Bool.and_comm]
    · exact (ih (i + 1) _).symm

theorem upsertChunks_mem {E : Type} (p f : String) (m : Int) :
    ∀ (pairs : List (List Char × E)) (i : Nat) (X : Collection E),
      ∀ e ∈ Indexer.upsertChunks p f m i pairs X,
        e ∈ X ∨ (e.2.metadata.file_path = p ∧ e.1 ∈ chunkIds p i pairs.length) := by
  intro pairs
  induction pairs with
  | nil => intro i X e he; exact Or.inl he
  | cons pr rest ih =>
    obtain ⟨c, emb⟩ := pr
    intro i X e he
    rw [Indexer.upsertChunks] at he
    rcases ih (i + 1) _ e he with h | h
    · rcases List.mem_append.mp h with h | h
      · exact Or.inl (List.mem_filter.mp h).1
      · simp only [List.mem_singleton] at h
        subst h
        exact Or.inr ⟨rfl, by simp [chunkIds]⟩
    · exact Or.inr ⟨h.1, by simp [chunkIds, h.2]⟩

theorem upsert_nodup_keys {E : Type} (X : Collection E) (id : String) (r : ChunkRec E)
    (h : (X.map Prod.fst).Nodup) :
    ((ChromaStore.upsert X id r).map Prod.fst).Nodup := by
  unfold ChromaStore.upsert
  rw [List.map_append]
  refine List.Nodup.append ?_ (by simp) ?_
  · exact h.sublist ((List.filter_sublist _).map _)
  · intro a ha hb
    simp only [List.map_cons, List.map_nil, List.mem_singleton] at hb
    subst hb
    obtain ⟨e, he, rfl⟩ := List.mem_map.mp ha
    have := List.mem_filter.mp he
    simp at this

theorem upsertChunks_nodup_keys {E : Type} (p f : String) (m : Int) :
    ∀ (pairs : List (List Char × E)) (i : Nat) (X : Collection E),
      (X.map Prod.fst).Nodup →
      ((Indexer.upsertChunks p f m i pairs X).map Prod.fst).Nodup := by
  intro pairs
  induction pairs with
  | nil => intro i X h; exact h
  | cons pr rest ih =>
    obtain ⟨c, emb⟩ := pr
    intro i X h
    rw [Indexer.upsertChunks]
    exact ih (i + 1) _ (upsert_nodup_keys X _ _ h)

theorem delete_nodup_keys {E : Type} (c : Collection E) (pstr : String)
    (h : (c.map Prod.fst).Nodup) :
    ((ChromaStore.delete_by_path c pstr).map Prod.fst).Nodup :=
  h.sublist ((List.filter_sublist _).map _)

/-- Re-running delete-then-upsert for the same file on its own output
changes nothing: the delete removes exactly the chunks the first pass
wrote, and the upserts write them back. -/
theorem indexTransform_idem {E : Type} (p f : String) (m : Int)
    (pairs : List (List Char × E)) (c : Collection E) :
    Indexer.upsertChunks p f m 0 pairs
      (ChromaStore.delete_by_path
        (Indexer.upsertChunks p f m 0 pairs (ChromaStore.delete_by_path c p)) p)
      = Indexer.upsertChunks p f m 0 pairs (ChromaStore.delete_by_path c p) := by
  have h1 : Indexer.upsertChunks p f m 0 pairs (ChromaStore.delete_by_path c p)
      = (ChromaStore.delete_by_path c p).filter
          (fun e => ¬ e.1 ∈ chunkIds p 0 pairs.length)
        ++ Indexer.upsertChunks p f m 0 pairs [] := upsertChunks_normal p f m pairs 0 _
  have hdel : ChromaStore.delete_by_path
      (Indexer.upsertChunks p f m 0 pairs (ChromaStore.delete_by_path c p)) p
      = (ChromaStore.delete_by_path c p).filter
          (fun e => ¬ e.1 ∈ chunkIds p 0 pairs.length) := by
    rw [h1]
    unfold ChromaStore.delete_by_path
    rw [List.filter_append]
    have hA : ((c.filter (fun e => ¬ (e.2.metadata.file_path = p))).filter
          (fun e => ¬ e.1 ∈ chunkIds p 0 pairs.length)).filter
          (fun e => ¬ (e.2.metadata.file_path = p))
        = (c.filter (fun e => ¬ (e.2.metadata.file_path = p))).filter
          (fun e => ¬ e.1 ∈ chunkIds p 0 pairs.length) := by
      apply List.filter_eq_self.mpr
      intro e he
      have h2 := List.mem_filter.mp (List.mem_filter.mp he).1
      exact h2.2
    have hB : (Indexer.upsertChunks p f m 0 pairs ([] : Collection E)).filter
          (fun e => ¬ (e.2.metadata.file_path = p)) = [] := by
      apply List.filter_eq_nil_iff.mpr
      intro e he
      rcases upsertChunks_mem p f m pairs 0 [] e he with h | h
      · simp at h
      · simp [h.1]
    rw [hB, List.append_nil]
    exact hA
  rw [hdel, upsertChunks_normal p f m pairs 0]
  rw [h1]
  congr 1
  apply List.filter_eq_self.mpr
  intro e he
  exact (List.mem_filter.mp he).2

/-! ## Store-map lemmas -/

theorem storeUpd_storeUpd {E : Type} (S : List (String × Collection E)) (f : String)
    (g h : Collection E → Collection E) :
    storeUpd (storeUpd S f g) f h = storeUpd S f (fun c => h (g c)) := by
  unfold storeUpd
  rw [List.map_map]
  congr 1
  funext e
  by_cases he : e.1 = collection_name f <;> simp [Function.comp, he]

theorem storeGetOrCreate_present {E : Type} (S : List (String × Collection E))
    (f : String) (h : (alGet S (collection_name f)).isSome = true) :
    storeGetOrCreate S f = S := by
  unfold storeGetOrCreate
  simp [h]

theorem upd_getOrCreate_present {E : Type} (S : List (String × Collection E))
    (f : String) (g : Collection E → Collection E) :
    (alGet (storeUpd (storeGetOrCreate S f) f g) (collection_name f)).isSome = true := by
  rw [alGet_storeUpd_self, storeColl_storeGetOrCreate]
  rfl

theorem mem_storeUpd {E : Type} (S : List (String × Collection E)) (f : String)
    (g : Collection E → Collection E) (n : String) (c : Collection E)
    (h : (n, c) ∈ storeUpd S f g) :
    ∃ c0, (n, c0) ∈ S ∧ (c = g c0 ∨ c = c0) := by
  obtain ⟨e0, he0, heq⟩ := List.mem_map.mp h
  obtain ⟨n0, c0⟩ := e0
  simp only [Prod.mk.injEq] at heq
  refine ⟨c0, ?_, ?_⟩
  · rw [← heq.1]
    exact he0
  · by_cases hn : n0 = collection_name f
    · rw [← heq.2]
      simp [hn]
    · rw [← heq.2]
      simp [hn]

theorem mem_storeGetOrCreate {E : Type} (S : List (String × Collection E)) (f : String)
    (n : String) (c : Collection E) (h : (n, c) ∈ storeGetOrCreate S f) :
    (n, c) ∈ S ∨ c = [] := by
  unfold storeGetOrCreate at h
  by_cases hp : (alGet S (collection_name f)).isSome = true
  · rw [if_pos hp] at h
    exact Or.inl h
  · rw [if_neg hp] at h
    rcases List.mem_append.mp h with h | h
    · exact Or.inl h
    · simp only [List.mem_singleton, Prod.mk.injEq] at h
      exact Or.inr h.2

/-- C3: with the filesystem unchanged, running `index_file` twice in
succession leaves exactly the store state of running it once
(idempotence: the second run's `delete_by_path` removes precisely the
chunks the first run upserted, and the deterministic ids make the second
upsert write the same records); and, provided every collection's ids
start out unique (Chroma guarantees id uniqueness), they stay unique, so
for every `(file_path, index)` pair at most one chunk with id
`chunk_id(file_path, index)` exists in the collection. -/
theorem C3_index_file_idempotent {E : Type} (s : Settings)
    (embedF : List (List Char) → List E) (fs : Fs) (folder : FolderConfig)
    (p : String) (si stt : Option Nat) (st : DaemonState E)
    (hnodup : ∀ n c, (n, c) ∈ st.store → (c.map Prod.fst).Nodup) :
    (Indexer.index_file s embedF fs folder p si stt
        (Indexer.index_file s embedF fs folder p si stt st).1).1.store
      = (Indexer.index_file s embedF fs folder p si stt st).1.store ∧
    (∀ n c, (n, c) ∈ (Indexer.index_file s embedF fs folder p si stt st).1.store →
      (c.map Prod.fst).Nodup ∧
      ∀ fp i, (c.map Prod.fst).count (chunk_id fp i) ≤ 1) := by
  have hcount : ∀ (l : List String), l.Nodup → ∀ a, l.count a ≤ 1 := by
    intro l h a
    exact List.nodup_iff_count_le_one.mp h a
  have hgoc : ∀ (S : List (String × Collection E)),
      storeGetOrCreate (storeGetOrCreate S folder.path) folder.path
        = storeGetOrCreate S folder.path := by
    intro S
    apply storeGetOrCreate_present
    rw [storeColl_storeGetOrCreate]
    rfl
  have htriv : (∀ n c, (n, c) ∈ storeGetOrCreate st.store folder.path →
      (c.map Prod.fst).Nodup ∧
      ∀ fp i, (c.map Prod.fst).count (chunk_id fp i) ≤ 1) := by
    intro n c hm
    rcases mem_storeGetOrCreate _ _ _ _ hm with h0 | h0
    · exact ⟨hnodup n c h0, fun fp i => hcount _ (hnodup n c h0) _⟩
    · subst h0
      exact ⟨by simp, fun fp i => by simp⟩
  by_cases hext : suffixLower p ∈ folder.extensions
  · rcases hfi : alGet fs p with _ | fi
    · have h0 : ∀ stX : DaemonState E,
          Indexer.index_file s embedF fs folder p si stt stX = (stX, []) := by
        intro stX; simp [Indexer.index_file, hext, hfi]
      simp only [h0]
      exact ⟨trivial, fun n c hm => ⟨hnodup n c hm, fun fp i => hcount _ (hnodup n c hm) _⟩⟩
    · rcases htext : fi.text with _ | text
      · have h0 : ∀ stX : DaemonState E,
            Indexer.index_file s embedF fs folder p si stt stX
              = ({ stX with store := storeGetOrCreate stX.store folder.path }, []) := by
          intro stX; simp [Indexer.index_file, hext, hfi, htext]
        simp only [h0]
        exact ⟨hgoc st.store, htriv⟩
      · by_cases hstrip : pyStrip text = []
        · have h0 : ∀ stX : DaemonState E,
              Indexer.index_file s embedF fs folder p si stt stX
                = ({ stX with store := storeGetOrCreate stX.store folder.path }, []) := by
            intro stX; simp [Indexer.index_file, hext, hfi, htext, hstrip]
          simp only [h0]
          exact ⟨hgoc st.store, htriv⟩
        · by_cases hchunks : chunk_text text s.chunk_size s.chunk_overlap = []
          · have h0 : ∀ stX : DaemonState E,
                Indexer.index_file s embedF fs folder p si stt stX
                  = ({ stX with store := storeGetOrCreate stX.store folder.path }, []) := by
              intro stX; simp [Indexer.index_file, hext, hfi, htext, hstrip, hchunks]
            simp only [h0]
            exact ⟨hgoc st.store, htriv⟩
          · have hrun : ∀ stX : DaemonState E,
                (Indexer.index_file s embedF fs folder p si stt stX).1.store
                  = storeUpd (storeGetOrCreate stX.store folder.path) folder.path
                      (fun c => Indexer.upsertChunks p folder.path fi.mtime 0
                        ((chunk_text text s.chunk_size s.chunk_overlap).zip
                          (embedF (chunk_text text s.chunk_size s.chunk_overlap)))
                        (ChromaStore.delete_by_path c p)) := by
              intro stX
              rcases hsi : si with _ | i
              · simp only [Indexer.index_file, if_pos hext, hfi, htext, if_neg hstrip,
                  if_neg hchunks, hsi, Option.isNone_none, if_pos]
                exact storeUpd_storeUpd _ _ _ _
              · simp only [Indexer.index_file, if_pos hext, hfi, htext, if_neg hstrip,
                  if_neg hchunks, hsi, Option.isNone_some, Bool.false_eq_true, if_false]
                exact storeUpd_storeUpd _ _ _ _
            constructor
            · rw [hrun ((Indexer.index_file s embedF fs folder p si stt st).1), hrun st]
              rw [storeGetOrCreate_present _ _ (upd_getOrCreate_present _ _ _)]
              rw [storeUpd_storeUpd]
              congr 1
              funext c
              exact indexTransform_idem p folder.path fi.mtime _ c
            · intro n c hm
              rw [hrun st] at hm
              obtain ⟨c0, hc0, hcase⟩ := mem_storeUpd _ _ _ _ _ hm
              rcases mem_storeGetOrCreate _ _ _ _ hc0 with h0 | h0
              · have hnd0 : (c0.map Prod.fst).Nodup := hnodup n c0 h0
                rcases hcase with rfl | rfl
                · have hnd : (((Indexer.upsertChunks p folder.path fi.mtime 0
                      ((chunk_text text s.chunk_size s.chunk_overlap).zip
                        (embedF (chunk_text text s.chunk_size s.chunk_overlap)))
                      (ChromaStore.delete_by_path c0 p))).map Prod.fst).Nodup :=
                    upsertChunks_nodup_keys p folder.path fi.mtime _ 0 _
                      (delete_nodup_keys c0 p hnd0)
                  exact ⟨hnd, fun fp i => hcount _ hnd _⟩
                · exact ⟨hnd0, fun fp i => hcount _ hnd0 _⟩
              · subst h0
                rcases hcase with rfl | rfl
                · have hnd : (((Indexer.upsertChunks p folder.path fi.mtime 0
                      ((chunk_text text s.chunk_size s.chunk_overlap).zip
                        (embedF (chunk_text text s.chunk_size s.chunk_overlap)))
                      (ChromaStore.delete_by_path [] p))).map Prod.fst).Nodup :=
                    upsertChunks_nodup_keys p folder.path fi.mtime _ 0 _
                      (delete_nodup_keys [] p (by simp))
                  exact ⟨hnd, fun fp i => hcount _ hnd _⟩
                · exact ⟨by simp, fun fp i => by simp⟩
  · have h0 : ∀ stX : DaemonState E,
        Indexer.index_file s embedF fs folder p si stt stX = (stX, []) := by
      intro stX; simp [Indexer.index_file, hext]
    simp only [h0]
    exact ⟨trivial, fun n c hm => ⟨hnodup n c hm, fun fp i => hcount _ (hnodup n c hm) _⟩⟩

theorem C3_witness :
    (Indexer.index_file wSettings wEmbed wFs wFolder "/f/a.txt" none none
        (Indexer.index_file wSettings wEmbed wFs wFolder "/f/a.txt" none none wState0).1).1.store
      = (Indexer.index_file wSettings wEmbed wFs wFolder "/f/a.txt" none none wState0).1.store ∧
    (∀ n c, (n, c) ∈
        (Indexer.index_file wSettings wEmbed wFs wFolder "/f/a.txt" none none wState0).1.store →
      (c.map Prod.fst).Nodup ∧
      ∀ fp i, (c.map Prod.fst).count (chunk_id fp i) ≤ 1) :=
  C3_index_file_idempotent wSettings wEmbed wFs wFolder "/f/a.txt" none none wState0
    (by intro n c hm; simp [wState0] at hm)

/-! ## Path-identifier claims -/

theorem get_files_set_file_self (d : CacheData) (f p : String) (m : Int) (n : Nat) :
    alGet (FileIndexCache.get_files (FileIndexCache.set_file d f p m n) f) p = some m := by
  unfold FileIndexCache.set_file FileIndexCache.get_files
  rw [alGet_alSet_self]
  simp [alGet_alSet_self]

/-- C8 counterexample: the watcher hands `index_file` the raw
`event.src_path`; for a symlinked file the stored identifiers (cache key
and chunk metadata `file_path`) are the unresolved path, not its
symlink-resolved form — no `Path.resolve()` is ever applied to file
paths (watcher.py 31-33, indexer.py 78, cache.py 54). -/
theorem C8_counterexample :
    resolveOf wFsLink "/f/link.txt" = some "/real/a.txt" ∧
    ¬ identifiersResolved wFsLink
        (FileEventHandler.on_created wSettings wEmbed wFsLink wFolder false "/f/link.txt"
          wState0) := by
  constructor
  · rfl
  · decide

/-- C8 (amended): paths are used as identifiers in the exact string form
handed to the operation, consistently: after a successful
`index_file(F, P)` the cache's file key for P is the string P with the
file's stat mtime, and every chunk of F's collection either predates the
call or carries metadata `file_path` exactly equal to the string P.  Only
folder paths are symlink-resolved (at config load); file paths are not
re-resolved. -/
theorem C8_identifiers_verbatim {E : Type} (s : Settings)
    (embedF : List (List Char) → List E) (fs : Fs) (folder : FolderConfig)
    (p : String) (st : DaemonState E) (fi : FileInfo) (text : List Char)
    (hext : suffixLower p ∈ folder.extensions) (hfi : alGet fs p = some fi)
    (htext : fi.text = some text) (hstrip : ¬ pyStrip text = [])
    (hchunks : ¬ chunk_text text s.chunk_size s.chunk_overlap = []) :
    alGet (FileIndexCache.get_files
        (Indexer.index_file s embedF fs folder p none none st).1.cache folder.path) p
      = some fi.mtime ∧
    (∀ e ∈ storeColl (Indexer.index_file s embedF fs folder p none none st).1.store
        folder.path,
      e ∈ storeColl st.store folder.path ∨ e.2.metadata.file_path = p) := by
  have hcache : ∃ n : Nat, (Indexer.index_file s embedF fs folder p none none st).1.cache
      = FileIndexCache.set_file st.cache folder.path p fi.mtime n :=
    ⟨_, by
      simp only [Indexer.index_file, if_pos hext, hfi, htext, if_neg hstrip, if_neg hchunks,
        Option.isNone_none, if_pos]
      exact rfl⟩
  have hstore : (Indexer.index_file s embedF fs folder p none none st).1.store
      = storeUpd (storeGetOrCreate st.store folder.path) folder.path
          (fun c => Indexer.upsertChunks p folder.path fi.mtime 0
            ((chunk_text text s.chunk_size s.chunk_overlap).zip
              (embedF (chunk_text text s.chunk_size s.chunk_overlap)))
            (ChromaStore.delete_by_path c p)) := by
    simp only [Indexer.index_file, if_pos hext, hfi, htext, if_neg hstrip, if_neg hchunks,
      Option.isNone_none, if_pos]
    exact storeUpd_storeUpd _ _ _ _
  constructor
  · obtain ⟨n, hc⟩ := hcache
    rw [hc]
    exact get_files_set_file_self _ _ _ _ _
  · intro e he
    rw [hstore, storeColl_upd_getOrCreate] at he
    rcases upsertChunks_mem p folder.path fi.mtime _ 0 _ e he with h | h
    · exact Or.inl (List.mem_filter.mp h).1
    · exact Or.inr h.1

theorem C8_witness :
    alGet (FileIndexCache.get_files
        (Indexer.index_file wSettings wEmbed wFs wFolder "/f/a.txt" none none wState0).1.cache
        "/f") "/f/a.txt"
      = some wFileA.mtime ∧
    (∀ e ∈ storeColl
        (Indexer.index_file wSettings wEmbed wFs wFolder "/f/a.txt" none none wState0).1.store
        "/f",
      e ∈ storeColl wState0.store "/f" ∨ e.2.metadata.file_path = "/f/a.txt") :=
  C8_identifiers_verbatim wSettings wEmbed wFs wFolder "/f/a.txt" wState0 wFileA "hi".data
    (by decide) (by decide) (by decide) (by decide) (by decide)
